import Mathlib

/-!
# koda-adventure: the per-frame physics and collision step

A shallow embedding of the layered implementation (`game/game.go`,
`player/player.go`, `world/platform.go`) and of the parts of the flat
implementation (`game.go`) that the statements below compare it with.

Modelling conventions.

* `float64` values are rationals (`ℚ`); there is no NaN and no infinity.
  The embedding of the namespaces `player`, `game` and `flat` computes with
  exact arithmetic: no result is rounded and the literal `0.4` is the rational
  `2/5`. The embedding of the namespace `rounded` repeats the layered frame step
  in float64 arithmetic: every sum and difference is rounded to the nearest
  float64 value by `Go.float64`, and `0.4` is the float64 value nearest to it.
  The statements on free fall (C10) are about the float64 embedding.
* Go's `int` is `Int` without a width; the conversion `int(f)` of a float
  discards the fraction (truncation towards zero).
* `image.Point`, `image.Rectangle`, `image.Rect`, `Empty` and `Overlaps` follow
  the Go standard library package `image`.
* The keyboard is an explicit argument: the three key queries that
  `HandleInput` makes are the three fields of `Keys`.
* Rendering (`Draw`, `Layout`, `whiteImage`) is left out.
-/

/-! ## Go conversions and the standard `image` package -/

namespace Go

/-- Go's conversion `int(f)` of a floating-point value: the fraction is
discarded, so the value is rounded towards zero. -/
def int (f : ℚ) : Int := Int.tdiv f.num f.den

end Go

/-! ## Rounding to float64 -/

namespace Go

/-- The number of halvings that bring `n` below 2, with `fuel` as the bound of
the recursion. -/
def log2Fuel : ℕ → ℕ → ℕ
  | 0, _ => 0
  | fuel + 1, n => if 2 ≤ n then log2Fuel fuel (n / 2) + 1 else 0

/-- The integer part of the binary logarithm of a natural number. -/
def ilog2 (n : ℕ) : ℕ := log2Fuel n n

/-- The power `2 ^ e` for an integer exponent. -/
def pow2 (e : ℤ) : ℚ := if 0 ≤ e then (2 : ℚ) ^ e.toNat else 1 / (2 : ℚ) ^ (-e).toNat

/-- The binary exponent of a non-zero value: the `e` with `2 ^ e <= |q| < 2 ^ (e + 1)`. -/
def binade (q : ℚ) : ℤ :=
  let e0 : ℤ := (ilog2 q.num.natAbs : ℤ) - (ilog2 q.den : ℤ)
  if pow2 e0 ≤ |q| then e0 else e0 - 1

/-- The nearest integer, a tie going to the even one. -/
def roundHalfEven (x : ℚ) : ℤ :=
  if x - ⌊x⌋ < 1 / 2 then ⌊x⌋
  else if 1 / 2 < x - ⌊x⌋ then ⌊x⌋ + 1
  else if ⌊x⌋ % 2 = 0 then ⌊x⌋ else ⌊x⌋ + 1

/-- The exponent of the unit in the last place of the float64 values around a
non-zero `q`: 52 below the binary exponent of `q`, which is taken as -1022 for
the subnormal range. -/
def ulpExponent (q : ℚ) : ℤ := max (binade q) (-1022) - 52

/-- The float64 value nearest to `q`, a tie going to the even significand
(IEEE 754 binary64, round to nearest even). Overflow to an infinity is not
modelled. -/
def float64 (q : ℚ) : ℚ :=
  if q = 0 then 0
  else if q < 0 then
    -((roundHalfEven (-q / pow2 (ulpExponent q)) : ℚ) * pow2 (ulpExponent q))
  else (roundHalfEven (q / pow2 (ulpExponent q)) : ℚ) * pow2 (ulpExponent q)

end Go

namespace image

/-- An integer point, `image.Point`. -/
structure Point where
  X : Int
  Y : Int
deriving DecidableEq

/-- A rectangle given by two corners, `image.Rectangle`; it contains the points
with `Min.X <= x < Max.X` and `Min.Y <= y < Max.Y`. -/
structure Rectangle where
  Min : Point
  Max : Point
deriving DecidableEq

/-- The constructor `image.Rect(x0, y0, x1, y1)`: the coordinates are swapped
where needed so that the result is well-formed. -/
def Rect (x0 y0 x1 y1 : Int) : Rectangle :=
  let xs : Int × Int := if x0 > x1 then (x1, x0) else (x0, x1)
  let ys : Int × Int := if y0 > y1 then (y1, y0) else (y0, y1)
  ⟨⟨xs.1, ys.1⟩, ⟨xs.2, ys.2⟩⟩

/-- The method `Dx`: the width of a rectangle. -/
def Rectangle.Dx (r : Rectangle) : Int := r.Max.X - r.Min.X

/-- The method `Dy`: the height of a rectangle. -/
def Rectangle.Dy (r : Rectangle) : Int := r.Max.Y - r.Min.Y

/-- The method `Empty`: whether the rectangle contains no points. -/
def Rectangle.Empty (r : Rectangle) : Bool :=
  decide (r.Min.X ≥ r.Max.X) || decide (r.Min.Y ≥ r.Max.Y)

/-- The method `Overlaps`: whether two rectangles have a non-empty intersection. -/
def Rectangle.Overlaps (r s : Rectangle) : Bool :=
  !r.Empty && !s.Empty &&
    decide (r.Min.X < s.Max.X) && decide (s.Min.X < r.Max.X) &&
    decide (r.Min.Y < s.Max.Y) && decide (s.Min.Y < r.Max.Y)

end image

/-! ## `world/platform.go` -/

namespace world

/-- A platform is an `image.Rectangle` (the source uses a type alias). -/
abbrev Platform := image.Rectangle

/-- The screen width in pixels. -/
def ScreenWidth : Int := 640

/-- The screen height in pixels. -/
def ScreenHeight : Int := 480

/-- The platforms of the level, in list order. -/
def GetInitialPlatforms : List Platform :=
  [ image.Rect 0 (ScreenHeight - 40) ScreenWidth ScreenHeight,   -- Floor
    image.Rect 200 (ScreenHeight - 100) 300 (ScreenHeight - 80), -- Mid platform 1
    image.Rect 400 (ScreenHeight - 180) 500 (ScreenHeight - 160), -- Mid platform 2
    image.Rect 50 (ScreenHeight - 260) 150 (ScreenHeight - 240) ] -- High platform

end world

/-! ## `player/player.go` -/

namespace player

/-- The player's width. -/
def Width : Int := 16

/-- The player's height. -/
def Height : Int := 32

/-- The horizontal speed while a direction key is held. -/
def moveSpeed : ℚ := 3

/-- The initial upward velocity of a jump. -/
def jumpPower : ℚ := 7

/-- The acceleration due to gravity per frame, `0.4`, as the exact rational 2/5.
The float64 constant of the compiled program is `rounded.gravity`. -/
def gravity : ℚ := 2 / 5

/-- The terminal velocity. -/
def maxFallSpeed : ℚ := 8

/-- The state of the character: position of the top-left corner, velocity and
the ground flag. -/
structure Player where
  X : ℚ
  Y : ℚ
  Vx : ℚ
  Vy : ℚ
  OnGround : Bool
deriving DecidableEq

/-- The answers of the keyboard queries made during one frame:
`ebiten.IsKeyPressed(ebiten.KeyLeft)`, `ebiten.IsKeyPressed(ebiten.KeyRight)`
and `inpututil.IsKeyJustPressed(ebiten.KeySpace)`. -/
structure Keys where
  KeyLeft : Bool
  KeyRight : Bool
  KeySpace : Bool
deriving DecidableEq

/-- The player made by `NewPlayer`: at (100, 100), every other field zero. -/
def NewPlayer : Player := ⟨100, 100, 0, 0, false⟩

/-- The method `Rect`: the current bounding box. -/
def Player.Rect (p : Player) : image.Rectangle :=
  image.Rect (Go.int p.X) (Go.int p.Y) (Go.int p.X + Width) (Go.int p.Y + Height)

/-- The method `NextRectX`: the bounding box at the potential next horizontal
position. -/
def Player.NextRectX (p : Player) : image.Rectangle :=
  let nextX := p.X + p.Vx
  image.Rect (Go.int nextX) (Go.int p.Y) (Go.int nextX + Width) (Go.int p.Y + Height)

/-- The method `NextRectY`: the bounding box at the potential next vertical
position. The lower edge is computed from `p.Y`, as in the source. -/
def Player.NextRectY (p : Player) : image.Rectangle :=
  let nextY := p.Y + p.Vy
  image.Rect (Go.int p.X) (Go.int nextY) (Go.int p.X + Width) (Go.int p.Y + Height)

/-- The method `HandleInput`: the horizontal velocity is selected by the held
keys, and a jump starts when space was just pressed on the ground. -/
def Player.HandleInput (p : Player) (k : Keys) : Player :=
  let p : Player :=
    if k.KeyLeft then { p with Vx := -moveSpeed }
    else if k.KeyRight then { p with Vx := moveSpeed }
    else { p with Vx := 0 }
  if k.KeySpace && p.OnGround then { p with Vy := -jumpPower, OnGround := false }
  else p

/-- The method `ApplyGravity`: add gravity to the vertical velocity and clamp
the fall speed. The sum is exact here; `rounded.ApplyGravity` is the same method
with the sum rounded to float64, which matters when the method is iterated. -/
def Player.ApplyGravity (p : Player) : Player :=
  let p : Player := { p with Vy := p.Vy + gravity }
  if p.Vy > maxFallSpeed then { p with Vy := maxFallSpeed } else p

/-- The method `UpdatePosition`: move by the velocity. -/
def Player.UpdatePosition (p : Player) : Player :=
  { p with X := p.X + p.Vx, Y := p.Y + p.Vy }

/-- The method `ResetPosition`: back to the starting point, at rest. -/
def Player.ResetPosition (p : Player) : Player :=
  { p with X := 100, Y := 100, Vy := 0, Vx := 0, OnGround := false }

/-- The method `HandleCollisionX`: stop the horizontal movement. -/
def Player.HandleCollisionX (p : Player) : Player :=
  { p with Vx := 0 }

/-- The method `HandleCollisionY`: snap to the platform edge `platformY`
according to the direction of the vertical velocity, then stop it. -/
def Player.HandleCollisionY (p : Player) (platformY : ℚ) : Player :=
  let p : Player :=
    if p.Vy > 0 then { p with Y := platformY - Height, OnGround := true }
    else if p.Vy < 0 then { p with Y := platformY }
    else p
  { p with Vy := 0 }

end player

/-! ## `game/game.go` -/

namespace game

open player

/-- The screen width, taken from package `world`. -/
def ScreenWidth : Int := world.ScreenWidth

/-- The screen height, taken from package `world`. -/
def ScreenHeight : Int := world.ScreenHeight

/-- The game state: the player and the platforms (the drawing helper is left out). -/
structure Game where
  player : Player
  platforms : List world.Platform
deriving DecidableEq

/-- The game made by `NewGame`. -/
def NewGame : Game := ⟨NewPlayer, world.GetInitialPlatforms⟩

/-- The horizontal collision loop of `Update`: at the first platform that
overlaps `nextRectX` the player handles the collision and the loop stops. The
result is the player and the flag `collidedX`. -/
def checkHorizontal (nextRectX : image.Rectangle) (pl : Player) :
    List world.Platform → Player × Bool
  | [] => (pl, false)
  | p :: ps =>
    if nextRectX.Overlaps p then (pl.HandleCollisionX, true)
    else checkHorizontal nextRectX pl ps

/-- The vertical collision loop of `Update`: at the first platform that overlaps
`nextRectY` the player lands on its top (`Vy > 0`) or hits its bottom
(`Vy < 0`), and the loop stops. The result is the player and the flag
`collidedY`. -/
def checkVertical (nextRectY : image.Rectangle) (pl : Player) :
    List world.Platform → Player × Bool
  | [] => (pl, false)
  | p :: ps =>
    if nextRectY.Overlaps p then
      (if pl.Vy > 0 then pl.HandleCollisionY (p.Min.Y : ℚ)
       else if pl.Vy < 0 then pl.HandleCollisionY (p.Max.Y : ℚ)
       else pl, true)
    else checkVertical nextRectY pl ps

/-- Steps 3 and 4 of `Update`, on the player `pl` that input and gravity have
produced: the ground flag is cleared, both next boxes are computed, the two
collision loops run, and the position is updated on the axes without a
collision. -/
def collideAndMove (pl : Player) (platforms : List world.Platform) : Player :=
  -- 3. Collision Detection & Resolution
  let pl : Player := { pl with OnGround := false }
  let nextRectX := pl.NextRectX
  let nextRectY := pl.NextRectY
  let rx := checkHorizontal nextRectX pl platforms
  let collidedX := rx.2
  let ry := checkVertical nextRectY rx.1 platforms
  let collidedY := ry.2
  let pl := ry.1
  -- 4. Update Player Position
  let pl : Player := if !collidedX then { pl with X := pl.X + pl.Vx } else pl
  let pl : Player := if !collidedY then { pl with Y := pl.Y + pl.Vy } else pl
  pl

/-- Steps 1 and 2 of `Update`: the player after input and gravity. -/
def afterGravity (g : Game) (k : Keys) : Player :=
  (g.player.HandleInput k).ApplyGravity

/-- Steps 1 to 4 of `Update`: input, gravity, collision resolution and the
position update. -/
def moveAndCollide (g : Game) (k : Keys) : Player :=
  collideAndMove (afterGravity g k) g.platforms

/-- Step 5 of `Update`: keep the player between the left and right screen edges. -/
def screenBoundaries (pl : Player) : Player :=
  if pl.X < 0 then { pl with X := 0, Vx := 0 }
  else if pl.X + Width > ScreenWidth then { pl with X := ScreenWidth - Width, Vx := 0 }
  else pl

/-- The last step of `Update`: reset the player when it fell off the bottom. -/
def resetIfFallen (pl : Player) : Player :=
  if pl.Y > ScreenHeight then pl.ResetPosition else pl

/-- The method `Update`: one frame of the layered implementation. -/
def Update (g : Game) (k : Keys) : Game :=
  { g with player := resetIfFallen (screenBoundaries (moveAndCollide g k)) }

/-- The game after one frame for each entry of a list of keyboard states. -/
def frames (g : Game) : List Keys → Game
  | [] => g
  | k :: ks => frames (Update g k) ks

end game

/-! ## The flat implementation, `game.go` -/

namespace flat

/-- The rectangle `nextRectY` that the flat `Update` builds from the player's
`x`, `y` and `vy`: both vertical edges are computed from `nextY`. -/
def nextRectY (x y vy : ℚ) : image.Rectangle :=
  let nextY := y + vy
  image.Rect (Go.int x) (Go.int nextY) (Go.int x + 16) (Go.int nextY + 32)

/-- The screen width of the flat implementation. -/
def screenWidth : Int := 640

/-- The screen height of the flat implementation. -/
def screenHeight : Int := 480

/-- The player width of the flat implementation. -/
def playerWidth : Int := 16

/-- The player height of the flat implementation. -/
def playerHeight : Int := 32

/-- The horizontal speed while a direction key is held. -/
def playerMoveSpeed : ℚ := 3

/-- The initial upward velocity of a jump. -/
def playerJumpPower : ℚ := 7

/-- The acceleration due to gravity per frame, `0.4`. -/
def gravity : ℚ := 2 / 5

/-- The terminal velocity. -/
def maxFallSpeed : ℚ := 8

/-- The player of the flat implementation, with unexported fields. -/
structure Player where
  x : ℚ
  y : ℚ
  vx : ℚ
  vy : ℚ
  onGround : Bool
deriving DecidableEq

/-- The method `Rect` of the flat player: the current bounding box. -/
def Player.Rect (p : Player) : image.Rectangle :=
  image.Rect (Go.int p.x) (Go.int p.y) (Go.int p.x + playerWidth) (Go.int p.y + playerHeight)

/-- The game state of the flat implementation (the drawing helper is left out). -/
structure Game where
  player : Player
  platforms : List image.Rectangle
deriving DecidableEq

/-- The game made by the flat `NewGame`. -/
def NewGame : Game :=
  { player := { x := 100, y := 100, vx := 0, vy := 0, onGround := false },
    platforms :=
      [ image.Rect 0 (screenHeight - 40) screenWidth screenHeight,   -- Floor
        image.Rect 200 (screenHeight - 100) 300 (screenHeight - 80), -- Mid platform 1
        image.Rect 400 (screenHeight - 180) 500 (screenHeight - 160), -- Mid platform 2
        image.Rect 50 (screenHeight - 260) 150 (screenHeight - 240) ] } -- High platform

/-- The input handling and physics sections of the flat `Update`: the horizontal
velocity from the held keys, the jump, gravity and the fall-speed clamp. -/
def inputAndGravity (pl : Player) (k : player.Keys) : Player :=
  let pl : Player :=
    if k.KeyLeft then { pl with vx := -playerMoveSpeed }
    else if k.KeyRight then { pl with vx := playerMoveSpeed }
    else { pl with vx := 0 }
  let pl : Player :=
    if k.KeySpace && pl.onGround then { pl with vy := -playerJumpPower, onGround := false }
    else pl
  let pl : Player := { pl with vy := pl.vy + gravity }
  if pl.vy > maxFallSpeed then { pl with vy := maxFallSpeed } else pl

/-- The horizontal collision loop of the flat `Update`. -/
def checkHorizontal (nextRectX : image.Rectangle) (pl : Player) :
    List image.Rectangle → Player × Bool
  | [] => (pl, false)
  | p :: ps =>
    if nextRectX.Overlaps p then ({ pl with vx := 0 }, true)
    else checkHorizontal nextRectX pl ps

/-- The vertical collision loop of the flat `Update`. -/
def checkVertical (nextRectY : image.Rectangle) (pl : Player) :
    List image.Rectangle → Player × Bool
  | [] => (pl, false)
  | p :: ps =>
    if nextRectY.Overlaps p then
      let pl : Player :=
        if pl.vy > 0 then { pl with y := ((p.Min.Y - playerHeight : Int) : ℚ), onGround := true }
        else if pl.vy < 0 then { pl with y := (p.Max.Y : ℚ) }
        else pl
      ({ pl with vy := 0 }, true)
    else checkVertical nextRectY pl ps

/-- The collision section of the flat `Update`, on the player that input and
gravity have produced: the ground flag is cleared, both next boxes are built
from the position at that point, the horizontal loop runs and `x` is updated,
then the vertical loop runs and `y` is updated. -/
def collideAndMove (pl : Player) (platforms : List image.Rectangle) : Player :=
  let pl : Player := { pl with onGround := false }
  let nextX := pl.x + pl.vx
  let nextRectX := image.Rect (Go.int nextX) (Go.int pl.y) (Go.int nextX + playerWidth)
    (Go.int pl.y + playerHeight)
  let nextRectY := nextRectY pl.x pl.y pl.vy
  let rx := checkHorizontal nextRectX pl platforms
  let collidedX := rx.2
  let pl := rx.1
  let pl : Player := if !collidedX then { pl with x := pl.x + pl.vx } else pl
  let ry := checkVertical nextRectY pl platforms
  let collidedY := ry.2
  let pl := ry.1
  let pl : Player := if !collidedY then { pl with y := pl.y + pl.vy } else pl
  pl

/-- The screen boundary section of the flat `Update`: the clamp at the left and
right edges (the velocity is kept) and the reset below the screen (`x`, `y` and
`vy` only). -/
def boundaries (pl : Player) : Player :=
  let pl : Player :=
    if pl.x < 0 then { pl with x := 0 }
    else if pl.x + playerWidth > screenWidth then { pl with x := screenWidth - playerWidth }
    else pl
  if pl.y > screenHeight then { pl with x := 100, y := 100, vy := 0 } else pl

/-- The method `Update` of the flat implementation: one frame. -/
def Update (g : Game) (k : player.Keys) : Game :=
  { g with player := boundaries (collideAndMove (inputAndGravity g.player k) g.platforms) }

end flat

/-! ## Predicates used in the statements -/

namespace game

open player

/-- A frame of free fall from the game `g` under the keys `k`, in exact
arithmetic: the jump does not fire, no platform overlaps `NextRectY` and the
off-screen reset does not trigger. -/
def freeFallFrame (g : Game) (k : Keys) : Bool :=
  !(k.KeySpace && g.player.OnGround) &&
    g.platforms.all (fun p => !(afterGravity g k).NextRectY.Overlaps p) &&
    !decide ((moveAndCollide g k).Y > ScreenHeight)

/-- A run of free fall: every frame of the run, taken from the state the
previous frames have produced, is a frame of free fall. -/
def freeFallRun (g : Game) : List Keys → Bool
  | [] => true
  | k :: ks => freeFallFrame g k && freeFallRun (Update g k) ks

/-- The invariant of the level for the floor: the player is on the screen
horizontally, its `Y` is below 417, and a player that is on the ground or
rising is at `Y <= 408`, so that its box does not reach into the floor. -/
def aboveFloor (p : Player) : Prop :=
  (0 ≤ p.X ∧ p.X ≤ 624) ∧ p.Y < 417 ∧ (p.OnGround = true → p.Y ≤ 408) ∧ (p.Vy < 0 → p.Y ≤ 408)

/-- The flat player with the same field values as a layered player. -/
def toFlat (p : Player) : flat.Player :=
  { x := p.X, y := p.Y, vx := p.Vx, vy := p.Vy, onGround := p.OnGround }

end game

/-! ## The layered implementation in float64 arithmetic

The same methods with every floating-point addition and subtraction rounded
to float64 (`Go.float64`), and with the constant `0.4` as the float64 value
nearest to it. Comparisons and assignments of the constants 0, 3, 7, 8, 100
and 624 are exact. -/

namespace rounded

open player game

/-- The constant `gravity = 0.4` as a float64 value. -/
def gravity : ℚ := Go.float64 (2 / 5)

/-- The method `ApplyGravity` in float64 arithmetic. -/
def ApplyGravity (p : Player) : Player :=
  let p : Player := { p with Vy := Go.float64 (p.Vy + gravity) }
  if p.Vy > maxFallSpeed then { p with Vy := maxFallSpeed } else p

/-- The method `NextRectX` in float64 arithmetic. -/
def NextRectX (p : Player) : image.Rectangle :=
  let nextX := Go.float64 (p.X + p.Vx)
  image.Rect (Go.int nextX) (Go.int p.Y) (Go.int nextX + Width) (Go.int p.Y + Height)

/-- The method `NextRectY` in float64 arithmetic. The lower edge is computed
from `p.Y`, as in the source. -/
def NextRectY (p : Player) : image.Rectangle :=
  let nextY := Go.float64 (p.Y + p.Vy)
  image.Rect (Go.int p.X) (Go.int nextY) (Go.int p.X + Width) (Go.int p.Y + Height)

/-- The method `HandleCollisionY` in float64 arithmetic. -/
def HandleCollisionY (p : Player) (platformY : ℚ) : Player :=
  let p : Player :=
    if p.Vy > 0 then { p with Y := Go.float64 (platformY - Height), OnGround := true }
    else if p.Vy < 0 then { p with Y := platformY }
    else p
  { p with Vy := 0 }

/-- The vertical collision loop of `Update` in float64 arithmetic; the platform
edge is converted with `float64(p.Min.Y)` or `float64(p.Max.Y)`. -/
def checkVertical (nextRectY : image.Rectangle) (pl : Player) :
    List world.Platform → Player × Bool
  | [] => (pl, false)
  | p :: ps =>
    if nextRectY.Overlaps p then
      (if pl.Vy > 0 then HandleCollisionY pl (Go.float64 (p.Min.Y : ℚ))
       else if pl.Vy < 0 then HandleCollisionY pl (Go.float64 (p.Max.Y : ℚ))
       else pl, true)
    else checkVertical nextRectY pl ps

/-- Steps 3 and 4 of `Update` in float64 arithmetic. The horizontal loop
performs no arithmetic and is the one of the exact embedding. -/
def collideAndMove (pl : Player) (platforms : List world.Platform) : Player :=
  -- 3. Collision Detection & Resolution
  let pl : Player := { pl with OnGround := false }
  let nextRectX := NextRectX pl
  let nextRectY := NextRectY pl
  let rx := game.checkHorizontal nextRectX pl platforms
  let collidedX := rx.2
  let ry := checkVertical nextRectY rx.1 platforms
  let collidedY := ry.2
  let pl := ry.1
  -- 4. Update Player Position
  let pl : Player := if !collidedX then { pl with X := Go.float64 (pl.X + pl.Vx) } else pl
  let pl : Player := if !collidedY then { pl with Y := Go.float64 (pl.Y + pl.Vy) } else pl
  pl

/-- Steps 1 and 2 of `Update` in float64 arithmetic; `HandleInput` only assigns
constants. -/
def afterGravity (g : Game) (k : Keys) : Player :=
  ApplyGravity (g.player.HandleInput k)

/-- Steps 1 to 4 of `Update` in float64 arithmetic. -/
def moveAndCollide (g : Game) (k : Keys) : Player :=
  collideAndMove (afterGravity g k) g.platforms

/-- Step 5 of `Update` in float64 arithmetic. -/
def screenBoundaries (pl : Player) : Player :=
  if pl.X < 0 then { pl with X := 0, Vx := 0 }
  else if Go.float64 (pl.X + Width) > ScreenWidth then
    { pl with X := ScreenWidth - Width, Vx := 0 }
  else pl

/-- The method `Update` in float64 arithmetic; the reset step only compares and
assigns constants. -/
def Update (g : Game) (k : Keys) : Game :=
  { g with player := game.resetIfFallen (screenBoundaries (moveAndCollide g k)) }

/-- The game after one frame in float64 arithmetic for each entry of a list of
keyboard states. -/
def frames (g : Game) : List Keys → Game
  | [] => g
  | k :: ks => frames (Update g k) ks

/-- A frame of free fall in float64 arithmetic: the jump does not fire, no
platform overlaps `NextRectY` and the off-screen reset does not trigger. -/
def freeFallFrame (g : Game) (k : Keys) : Bool :=
  !(k.KeySpace && g.player.OnGround) &&
    g.platforms.all (fun p => !(NextRectY (afterGravity g k)).Overlaps p) &&
    !decide ((moveAndCollide g k).Y > ScreenHeight)

/-- A run of free fall in float64 arithmetic. -/
def freeFallRun (g : Game) : List Keys → Bool
  | [] => true
  | k :: ks => freeFallFrame g k && freeFallRun (Update g k) ks

end rounded

/-! ## Auxiliary facts -/

namespace game

open player

/-- The horizontal loop reacts exactly when some platform overlaps the box. -/
theorem checkHorizontal_eq (r : image.Rectangle) (pl : Player) (ps : List world.Platform) :
    checkHorizontal r pl ps =
      if ps.any (fun p => r.Overlaps p) then (pl.HandleCollisionX, true) else (pl, false) := by
  induction ps with
  | nil => simp [checkHorizontal]
  | cons p ps ih =>
    by_cases h : r.Overlaps p = true
    · simp [checkHorizontal, h]
    · simp [checkHorizontal, h, ih]

/-- The vertical loop reacts to the first platform that overlaps the box. -/
theorem checkVertical_eq (r : image.Rectangle) (pl : Player) (ps : List world.Platform) :
    checkVertical r pl ps =
      match ps.find? (fun p => r.Overlaps p) with
      | some p =>
        (if pl.Vy > 0 then pl.HandleCollisionY (p.Min.Y : ℚ)
         else if pl.Vy < 0 then pl.HandleCollisionY (p.Max.Y : ℚ)
         else pl, true)
      | none => (pl, false) := by
  induction ps with
  | nil => simp [checkVertical]
  | cons p ps ih =>
    by_cases h : r.Overlaps p = true
    · simp [checkVertical, h, List.find?]
    · simp [checkVertical, h, ih, List.find?]

/-- The outcome of steps 3 and 4, field by field. -/
theorem collideAndMove_eq (q : Player) (ps : List world.Platform) :
    collideAndMove q ps =
      { X := if ps.any (fun p => q.NextRectX.Overlaps p) then q.X else q.X + q.Vx,
        Vx := if ps.any (fun p => q.NextRectX.Overlaps p) then 0 else q.Vx,
        Y := match ps.find? (fun p => q.NextRectY.Overlaps p) with
          | some P =>
            if q.Vy > 0 then (P.Min.Y : ℚ) - 32
            else if q.Vy < 0 then (P.Max.Y : ℚ)
            else q.Y
          | none => q.Y + q.Vy,
        Vy := match ps.find? (fun p => q.NextRectY.Overlaps p) with
          | some _ => 0
          | none => q.Vy,
        OnGround := match ps.find? (fun p => q.NextRectY.Overlaps p) with
          | some _ => decide (q.Vy > 0)
          | none => false } := by
  have hrY : ({ q with OnGround := false } : Player).NextRectY = q.NextRectY := rfl
  have hrX : ({ q with OnGround := false } : Player).NextRectX = q.NextRectX := rfl
  simp only [collideAndMove, checkHorizontal_eq, checkVertical_eq, hrX, hrY]
  cases hX : ps.any (fun p => q.NextRectX.Overlaps p) <;>
  cases hY : ps.find? (fun p => q.NextRectY.Overlaps p) <;>
  rcases lt_trichotomy q.Vy 0 with hv | hv | hv <;>
  simp [hv, hv.le, Player.HandleCollisionX, Player.HandleCollisionY, Height, not_lt.mpr hv.le]

/-- The screen-edge step touches only `X` and `Vx`. -/
theorem screenBoundaries_vertical (pl : Player) :
    (screenBoundaries pl).Y = pl.Y ∧ (screenBoundaries pl).Vy = pl.Vy ∧
    (screenBoundaries pl).OnGround = pl.OnGround := by
  unfold screenBoundaries
  split
  · simp
  · split <;> simp

/-- After the screen-edge step `X` lies on the screen. -/
theorem screenBoundaries_X (pl : Player) :
    0 ≤ (screenBoundaries pl).X ∧ (screenBoundaries pl).X ≤ 624 := by
  unfold screenBoundaries
  by_cases h0 : pl.X < 0
  · simp [h0]
  · by_cases h1 : pl.X + (Width : ℚ) > (ScreenWidth : ℚ)
    · have h1' : (640 : ℚ) < pl.X + 16 := by
        simpa [ScreenWidth, world.ScreenWidth, Width] using h1
      simp [h0, h1', ScreenWidth, world.ScreenWidth, Width]
      norm_num
    · simp only [h0, h1, if_false]
      simp only [ScreenWidth, world.ScreenWidth, Width] at h1
      push_cast at h1
      constructor <;> linarith

/-- The reset step leaves a player that is not below the screen as it is. -/
theorem resetIfFallen_of_le (pl : Player) (h : pl.Y ≤ 480) : resetIfFallen pl = pl := by
  simp [resetIfFallen, ScreenHeight, world.ScreenHeight, not_lt.mpr h]

/-- The reset step puts a player that is below the screen at the start. -/
theorem resetIfFallen_of_gt (pl : Player) (h : 480 < pl.Y) :
    resetIfFallen pl = ⟨100, 100, 0, 0, false⟩ := by
  simp [resetIfFallen, ScreenHeight, world.ScreenHeight, h, Player.ResetPosition]

/-- The `X` at the end of a frame lies on the screen. -/
theorem Update_X_bounds (g : Game) (k : Keys) :
    0 ≤ (Update g k).player.X ∧ (Update g k).player.X ≤ 624 := by
  simp only [Update, resetIfFallen]
  split
  · simp only [Player.ResetPosition]
    norm_num
  · exact screenBoundaries_X _

/-- `Update` does not change the platform list. -/
theorem Update_platforms (g : Game) (k : Keys) : (Update g k).platforms = g.platforms := rfl

/-- Gravity in closed form. -/
theorem ApplyGravity_Vy (p : Player) : p.ApplyGravity.Vy = min (p.Vy + 2 / 5) 8 := by
  unfold Player.ApplyGravity
  simp only [gravity, maxFallSpeed]
  by_cases h : p.Vy + 2 / 5 > 8
  · simp [h, min_eq_right h.le]
  · simp [h, min_eq_left (not_lt.mp h)]

/-- Gravity changes nothing but `Vy`. -/
theorem ApplyGravity_rest (p : Player) :
    p.ApplyGravity.X = p.X ∧ p.ApplyGravity.Y = p.Y ∧ p.ApplyGravity.Vx = p.Vx ∧
    p.ApplyGravity.OnGround = p.OnGround := by
  simp only [Player.ApplyGravity]
  split <;> simp

/-- The position is not touched by `HandleInput`. -/
theorem HandleInput_pos (p : Player) (k : Keys) :
    (p.HandleInput k).X = p.X ∧ (p.HandleInput k).Y = p.Y := by
  unfold Player.HandleInput
  cases k.KeyLeft <;> cases k.KeyRight <;> cases k.KeySpace <;> cases p.OnGround <;> simp

/-- The horizontal velocity that `HandleInput` selects. -/
theorem HandleInput_Vx (p : Player) (k : Keys) :
    (p.HandleInput k).Vx = if k.KeyLeft then -3 else if k.KeyRight then 3 else 0 := by
  unfold Player.HandleInput
  cases k.KeyLeft <;> cases k.KeyRight <;> cases k.KeySpace <;> cases p.OnGround <;>
    simp [moveSpeed]

/-- The vertical velocity and ground flag that `HandleInput` leaves. -/
theorem HandleInput_jump (p : Player) (k : Keys) :
    (p.HandleInput k).Vy = (if (k.KeySpace && p.OnGround) = true then -7 else p.Vy) ∧
    (p.HandleInput k).OnGround = (if (k.KeySpace && p.OnGround) = true then false else p.OnGround) := by
  unfold Player.HandleInput
  cases k.KeyLeft <;> cases k.KeyRight <;> cases k.KeySpace <;> cases p.OnGround <;>
    simp [jumpPower]

end game

/-! ## The frame step: collision response -/

namespace game

open player

/-- C1. Vertical collision response of `Update`: when `P` is the first platform
in list order that overlaps `NextRectY` (taken after input and gravity), a
falling player (`Vy > 0` after gravity) ends the frame with
`Y = P.Min.Y - 32`, `Vy = 0` and `OnGround = true`, and a rising player
(`Vy < 0` after gravity) ends it with `Y = P.Max.Y`, `Vy = 0` and
`OnGround = false`; in both cases `Y` is the snapped value, not `Y + Vy`. Each
case is stated for a snapped `Y` of at most 480, where the reset does not fire. -/
theorem vertical_collision_response (g : Game) (k : Keys) (P : world.Platform)
    (hP : g.platforms.find? (fun p => (afterGravity g k).NextRectY.Overlaps p) = some P) :
    (0 < (afterGravity g k).Vy → (P.Min.Y : ℚ) - 32 ≤ 480 →
      (Update g k).player.Y = (P.Min.Y : ℚ) - 32 ∧ (Update g k).player.Vy = 0 ∧
      (Update g k).player.OnGround = true) ∧
    ((afterGravity g k).Vy < 0 → (P.Max.Y : ℚ) ≤ 480 →
      (Update g k).player.Y = (P.Max.Y : ℚ) ∧ (Update g k).player.Vy = 0 ∧
      (Update g k).player.OnGround = false) := by
  have hm := collideAndMove_eq (afterGravity g k) g.platforms
  rw [hP] at hm
  obtain ⟨hsY, hsVy, hsG⟩ := screenBoundaries_vertical (moveAndCollide g k)
  constructor
  · intro hv hle
    have hY : (moveAndCollide g k).Y = (P.Min.Y : ℚ) - 32 := by
      simp [moveAndCollide, hm, hv]
    have hr : resetIfFallen (screenBoundaries (moveAndCollide g k)) =
        screenBoundaries (moveAndCollide g k) :=
      resetIfFallen_of_le _ (by rw [hsY, hY]; exact hle)
    simp only [Update, hr, hsY, hsVy, hsG]
    simp [moveAndCollide, hm, hv]
  · intro hv hle
    have hv' : ¬ 0 < (afterGravity g k).Vy := not_lt.mpr hv.le
    have hY : (moveAndCollide g k).Y = (P.Max.Y : ℚ) := by
      simp [moveAndCollide, hm, hv, hv']
    have hr : resetIfFallen (screenBoundaries (moveAndCollide g k)) =
        screenBoundaries (moveAndCollide g k) :=
      resetIfFallen_of_le _ (by rw [hsY, hY]; exact hle)
    simp only [Update, hr, hsY, hsVy, hsG]
    simp [moveAndCollide, hm, hv, hv', hv.le]

/-- C1, witness: from `Y = 439`, `Vy = 8` above the floor of the level the frame
ends at `Y = 408`, `Vy = 0`, `OnGround = true`. -/
theorem vertical_collision_response_witness :
    (Update ⟨⟨100, 439, 0, 8, false⟩, world.GetInitialPlatforms⟩ ⟨false, false, false⟩).player.Y
        = 408 ∧
    (Update ⟨⟨100, 439, 0, 8, false⟩, world.GetInitialPlatforms⟩ ⟨false, false, false⟩).player.Vy
        = 0 ∧
    (Update ⟨⟨100, 439, 0, 8, false⟩, world.GetInitialPlatforms⟩
        ⟨false, false, false⟩).player.OnGround = true := by
  have h := (vertical_collision_response
    ⟨⟨100, 439, 0, 8, false⟩, world.GetInitialPlatforms⟩ ⟨false, false, false⟩
    (image.Rect 0 440 640 480)
    (by
      norm_num [afterGravity, Player.HandleInput, Player.ApplyGravity, Player.NextRectY,
        image.Rect, image.Rectangle.Overlaps, image.Rectangle.Empty, world.GetInitialPlatforms,
        world.ScreenHeight, world.ScreenWidth, Width, Height, gravity, maxFallSpeed, Go.int,
        Int.tdiv_eq_ediv, List.find?])).1
    (by norm_num [afterGravity, Player.HandleInput, Player.ApplyGravity, gravity, maxFallSpeed])
    (by norm_num [image.Rect])
  norm_num [image.Rect] at h
  exact h

/-- C2. A player at rest on the floor of the level, at `X = 100`, `Y = 408` with
`Vy = 0` and `OnGround = true`, no key held: the frame ends with `Y = 408.4`,
`Vy = 0.4` and `OnGround = false`. The box `NextRectY` spans the rows 408 to
440 (the flat implementation builds the same box here) and only touches the
top edge of the floor at 440, so the vertical check finds no platform and the
rest state is not kept. -/
theorem resting_on_floor_frame :
    (Update ⟨⟨100, 408, 0, 0, true⟩, world.GetInitialPlatforms⟩ ⟨false, false, false⟩).player
      = ⟨100, 2042 / 5, 0, 2 / 5, false⟩ ∧
    (Player.NextRectY ⟨100, 408, 0, 2 / 5, false⟩) = ⟨⟨100, 408⟩, ⟨116, 440⟩⟩ ∧
    flat.nextRectY 100 408 (2 / 5) = ⟨⟨100, 408⟩, ⟨116, 440⟩⟩ ∧
    (Player.NextRectY ⟨100, 408, 0, 2 / 5, false⟩).Overlaps (image.Rect 0 440 640 480) = false := by
  norm_num [Update, moveAndCollide, afterGravity, collideAndMove, checkHorizontal, checkVertical,
    Player.HandleInput, Player.ApplyGravity, Player.NextRectX, Player.NextRectY, image.Rect,
    image.Rectangle.Overlaps, image.Rectangle.Empty, world.GetInitialPlatforms, world.ScreenHeight,
    world.ScreenWidth, resetIfFallen, screenBoundaries, ScreenHeight, ScreenWidth, Width, Height,
    gravity, maxFallSpeed, moveSpeed, jumpPower, Go.int, Int.tdiv_eq_ediv, Player.HandleCollisionX,
    Player.HandleCollisionY, Player.ResetPosition, flat.nextRectY]

/-- C3. Horizontal collision resolution of `Update`. With `Vx` the velocity that
the input selects, `NextRectX` is the box `[int(X+Vx), int(X+Vx)+16)` by
`[int(Y), int(Y)+32)` at the start-of-frame position. It overlaps a platform
exactly when the platform is not empty and the strict inequalities hold on
both axes, so a platform that only touches an edge does not overlap. If some
platform of the list overlaps it, `X` is not advanced and `Vx` is 0 after
steps 1 to 4; if none does, `X` becomes `X + Vx` and `Vx` is kept. -/
theorem horizontal_collision_resolution (g : Game) (k : Keys) :
    (afterGravity g k).Vx = (if k.KeyLeft then -3 else if k.KeyRight then 3 else 0) ∧
    (afterGravity g k).NextRectX =
      ⟨⟨Go.int (g.player.X + (afterGravity g k).Vx), Go.int g.player.Y⟩,
       ⟨Go.int (g.player.X + (afterGravity g k).Vx) + 16, Go.int g.player.Y + 32⟩⟩ ∧
    (∀ p : world.Platform, (afterGravity g k).NextRectX.Overlaps p = true ↔
      (p.Min.X < p.Max.X ∧ p.Min.Y < p.Max.Y) ∧
      (Go.int (g.player.X + (afterGravity g k).Vx) < p.Max.X ∧
        p.Min.X < Go.int (g.player.X + (afterGravity g k).Vx) + 16) ∧
      (Go.int g.player.Y < p.Max.Y ∧ p.Min.Y < Go.int g.player.Y + 32)) ∧
    ((∃ p ∈ g.platforms, (afterGravity g k).NextRectX.Overlaps p = true) →
      (moveAndCollide g k).X = g.player.X ∧ (moveAndCollide g k).Vx = 0) ∧
    ((∀ p ∈ g.platforms, (afterGravity g k).NextRectX.Overlaps p = false) →
      (moveAndCollide g k).X = g.player.X + (afterGravity g k).Vx ∧
      (moveAndCollide g k).Vx = (afterGravity g k).Vx) := by
  have hX : (afterGravity g k).X = g.player.X := by
    simp [afterGravity, (ApplyGravity_rest _).1, (HandleInput_pos _ _).1]
  have hY : (afterGravity g k).Y = g.player.Y := by
    simp [afterGravity, (ApplyGravity_rest _).2.1, (HandleInput_pos _ _).2]
  have hVx : (afterGravity g k).Vx = (if k.KeyLeft then -3 else if k.KeyRight then 3 else 0) := by
    simp [afterGravity, (ApplyGravity_rest _).2.2.1, HandleInput_Vx]
  have hR : (afterGravity g k).NextRectX =
      ⟨⟨Go.int (g.player.X + (afterGravity g k).Vx), Go.int g.player.Y⟩,
       ⟨Go.int (g.player.X + (afterGravity g k).Vx) + 16, Go.int g.player.Y + 32⟩⟩ := by
    simp [Player.NextRectX, image.Rect, hX, hY, Width, Height]
  have hm := collideAndMove_eq (afterGravity g k) g.platforms
  refine ⟨hVx, hR, ?_, ?_, ?_⟩
  · intro p
    rw [hR]
    simp only [image.Rectangle.Overlaps, image.Rectangle.Empty, Bool.and_eq_true,
      Bool.not_eq_true', Bool.or_eq_false_iff, decide_eq_true_eq, decide_eq_false_iff_not]
    constructor
    · rintro ⟨⟨⟨⟨⟨-, h1, h2⟩, h3⟩, h4⟩, h5⟩, h6⟩
      exact ⟨⟨by omega, by omega⟩, ⟨h3, h4⟩, ⟨h5, h6⟩⟩
    · rintro ⟨⟨h1, h2⟩, ⟨h3, h4⟩, ⟨h5, h6⟩⟩
      exact ⟨⟨⟨⟨⟨⟨by omega, by omega⟩, by omega, by omega⟩, h3⟩, h4⟩, h5⟩, h6⟩
  · rintro ⟨p, hp, ho⟩
    have hany : g.platforms.any (fun p => (afterGravity g k).NextRectX.Overlaps p) = true :=
      List.any_eq_true.mpr ⟨p, hp, ho⟩
    simp [moveAndCollide, hm, hany, hX]
  · intro hall
    have hany : g.platforms.any (fun p => (afterGravity g k).NextRectX.Overlaps p) = false := by
      rw [List.any_eq_false]
      intro p hp
      simp [hall p hp]
    simp [moveAndCollide, hm, hany, hX]

/-- C3, witness: next to the first ledge of the level, moving right, the box
overlaps the ledge, so `X` stays at 184 and `Vx` is 0. -/
theorem horizontal_collision_resolution_witness :
    (moveAndCollide ⟨⟨184, 370, 0, 0, false⟩, world.GetInitialPlatforms⟩
      ⟨false, true, false⟩).X = 184 ∧
    (moveAndCollide ⟨⟨184, 370, 0, 0, false⟩, world.GetInitialPlatforms⟩
      ⟨false, true, false⟩).Vx = 0 :=
  (horizontal_collision_resolution ⟨⟨184, 370, 0, 0, false⟩, world.GetInitialPlatforms⟩
      ⟨false, true, false⟩).2.2.2.1
    ⟨image.Rect 200 380 300 400, by simp [world.GetInitialPlatforms, world.ScreenHeight], by
      norm_num [afterGravity, Player.HandleInput, Player.ApplyGravity, Player.NextRectX,
        image.Rect, image.Rectangle.Overlaps, image.Rectangle.Empty, Width, Height, gravity,
        maxFallSpeed, moveSpeed, Go.int, Int.tdiv_eq_ediv]⟩

/-- C4. In the second frame of a new game with no key held, `NextRectY` is
called at `X = 100`, `Y = 100.4`, `Vy = 0.8`. It returns the rectangle
(100, 101)-(116, 132), whose lower edge is `int(Y) + 32` and whose height is 31,
while the flat implementation builds (100, 101)-(116, 133) from the same
values, with lower edge `int(Y + Vy) + 32` and height 32. -/
theorem NextRectY_second_frame :
    afterGravity (Update NewGame ⟨false, false, false⟩) ⟨false, false, false⟩
      = ⟨100, 502 / 5, 0, 4 / 5, false⟩ ∧
    (Player.NextRectY ⟨100, 502 / 5, 0, 4 / 5, false⟩) = ⟨⟨100, 101⟩, ⟨116, 132⟩⟩ ∧
    (Player.NextRectY ⟨100, 502 / 5, 0, 4 / 5, false⟩).Dy = 31 ∧
    flat.nextRectY 100 (502 / 5) (4 / 5) = ⟨⟨100, 101⟩, ⟨116, 133⟩⟩ ∧
    (flat.nextRectY 100 (502 / 5) (4 / 5)).Dy = 32 := by
  norm_num [Update, NewGame, NewPlayer, moveAndCollide, afterGravity, collideAndMove,
    checkHorizontal, checkVertical,
    Player.HandleInput, Player.ApplyGravity, Player.NextRectX, Player.NextRectY, image.Rect,
    image.Rectangle.Overlaps, image.Rectangle.Empty, world.GetInitialPlatforms, world.ScreenHeight,
    world.ScreenWidth, resetIfFallen, screenBoundaries, ScreenHeight, ScreenWidth, Width, Height,
    gravity, maxFallSpeed, moveSpeed, jumpPower, Go.int, Int.tdiv_eq_ediv, Player.HandleCollisionX,
    Player.HandleCollisionY, Player.ResetPosition, flat.nextRectY, image.Rectangle.Dy]

end game

/-! ## The frame step: screen edges, reset, input and gravity -/

namespace game

open player

/-- The `X` after any run of frames that starts with a frame of `Update`. -/
theorem frames_X_bounds (ks : List Keys) : ∀ (g : Game) (k : Keys),
    0 ≤ (frames (Update g k) ks).player.X ∧ (frames (Update g k) ks).player.X ≤ 624 := by
  induction ks with
  | nil => intro g k; exact Update_X_bounds g k
  | cons k' ks ih => intro g k; exact ih (Update g k) k'

/-- C5. Horizontal clamp invariant: for every game state (the player's `X` may
be off the screen), every key input and every platform list, the player's `X`
after one frame of `Update` satisfies `0 <= X <= 624`, and so does the `X`
after every further frame of any sequence of frames. -/
theorem horizontal_clamp_invariant (g : Game) (k : Keys) (ks : List Keys) :
    (0 ≤ (Update g k).player.X ∧ (Update g k).player.X ≤ 624) ∧
    (0 ≤ (frames g (k :: ks)).player.X ∧ (frames g (k :: ks)).player.X ≤ 624) :=
  ⟨Update_X_bounds g k, frames_X_bounds ks g k⟩

/-- C6. Reset trigger: if the player's `Y` after the vertical step of `Update`
is above 480, the frame ends in exactly the state `X = 100`, `Y = 100`,
`Vx = 0`, `Vy = 0`, `OnGround = false`; if that `Y` is at most 480, the reset
step changes nothing, and the frame ends in the state that the screen-edge
step has produced. -/
theorem reset_trigger (g : Game) (k : Keys) :
    (480 < (moveAndCollide g k).Y → (Update g k).player = ⟨100, 100, 0, 0, false⟩) ∧
    ((moveAndCollide g k).Y ≤ 480 →
      resetIfFallen (screenBoundaries (moveAndCollide g k)) =
        screenBoundaries (moveAndCollide g k) ∧
      (Update g k).player = screenBoundaries (moveAndCollide g k)) := by
  have hsY := (screenBoundaries_vertical (moveAndCollide g k)).1
  constructor
  · intro h
    exact resetIfFallen_of_gt _ (by rw [hsY]; exact h)
  · intro h
    have hr := resetIfFallen_of_le (screenBoundaries (moveAndCollide g k)) (by rw [hsY]; exact h)
    exact ⟨hr, hr⟩

/-- C6, witness: a player at `Y = 479` falling with `Vy = 8` and moving right
in a game without platforms reaches `Y = 487` and is reset. -/
theorem reset_trigger_witness :
    (Update ⟨⟨300, 479, 3, 8, false⟩, []⟩ ⟨false, true, false⟩).player
      = ⟨100, 100, 0, 0, false⟩ :=
  (reset_trigger ⟨⟨300, 479, 3, 8, false⟩, []⟩ ⟨false, true, false⟩).1 (by
    norm_num [moveAndCollide, afterGravity, collideAndMove, checkHorizontal, checkVertical,
      Player.HandleInput, Player.ApplyGravity, gravity, maxFallSpeed, moveSpeed])

/-- C7. Jump gating in `HandleInput`: the jump fires exactly when space was just
pressed and `OnGround` is true. When it fires `Vy` becomes -7 and `OnGround`
becomes false; when it does not fire `Vy` and `OnGround` are unchanged; `X` and
`Y` are never changed. -/
theorem jump_gating (p : Player) (k : Keys) :
    ((k.KeySpace = true ∧ p.OnGround = true) →
      (p.HandleInput k).Vy = -7 ∧ (p.HandleInput k).OnGround = false) ∧
    (¬ (k.KeySpace = true ∧ p.OnGround = true) →
      (p.HandleInput k).Vy = p.Vy ∧ (p.HandleInput k).OnGround = p.OnGround) ∧
    (p.HandleInput k).X = p.X ∧ (p.HandleInput k).Y = p.Y := by
  obtain ⟨hVy, hG⟩ := HandleInput_jump p k
  refine ⟨?_, ?_, HandleInput_pos p k⟩
  · rintro ⟨hs, hg⟩
    simp [hVy, hG, hs, hg]
  · intro h
    have hc : (k.KeySpace && p.OnGround) = false := by
      cases hs : k.KeySpace <;> cases hg : p.OnGround <;> simp_all
    simp [hVy, hG, hc]

/-- C7, witness: on the ground with space just pressed the jump fires; in the
air it does not. -/
theorem jump_gating_witness :
    ((Player.HandleInput ⟨100, 408, 0, 0, true⟩ ⟨false, false, true⟩).Vy = -7 ∧
      (Player.HandleInput ⟨100, 408, 0, 0, true⟩ ⟨false, false, true⟩).OnGround = false) ∧
    ((Player.HandleInput ⟨100, 300, 0, 2, false⟩ ⟨false, false, true⟩).Vy = 2 ∧
      (Player.HandleInput ⟨100, 300, 0, 2, false⟩ ⟨false, false, true⟩).OnGround = false) :=
  ⟨(jump_gating ⟨100, 408, 0, 0, true⟩ ⟨false, false, true⟩).1 ⟨rfl, rfl⟩,
   (jump_gating ⟨100, 300, 0, 2, false⟩ ⟨false, false, true⟩).2.1 (by simp)⟩

/-- The ground flag after steps 3 and 4 is set only by a landing. -/
theorem collideAndMove_OnGround_of_neg (q : Player) (ps : List world.Platform) (h : q.Vy < 0) :
    (collideAndMove q ps).OnGround = false := by
  rw [collideAndMove_eq]
  cases ps.find? (fun p => q.NextRectY.Overlaps p) <;> simp [h.le]

/-- The vertical velocity after steps 3 and 4 is zero or the one before. -/
theorem collideAndMove_Vy (q : Player) (ps : List world.Platform) :
    (collideAndMove q ps).Vy = 0 ∨ (collideAndMove q ps).Vy = q.Vy := by
  rw [collideAndMove_eq]
  cases ps.find? (fun p => q.NextRectY.Overlaps p) <;> simp

/-- C8. No jump re-trigger on the following frame: if the jump fires in a frame
of `Update` (the player is on the ground and space was just pressed), that
frame ends with `OnGround = false`; so in the following frame `HandleInput`
leaves `Vy` and `OnGround` as they are, whatever the keys of that frame, and
`Vy` is not -7 after it. -/
theorem no_jump_retrigger (g : Game) (k k2 : Keys)
    (hg : g.player.OnGround = true) (hs : k.KeySpace = true) :
    (Update g k).player.OnGround = false ∧
    ((Update g k).player.HandleInput k2).Vy = (Update g k).player.Vy ∧
    ((Update g k).player.HandleInput k2).OnGround = false ∧
    ((Update g k).player.HandleInput k2).Vy ≠ -7 := by
  have hq : (afterGravity g k).Vy = -33 / 5 := by
    have h1 := (HandleInput_jump g.player k).1
    simp only [hs, hg, Bool.and_self, if_true] at h1
    rw [afterGravity, ApplyGravity_Vy, h1]
    norm_num
  have hneg : (afterGravity g k).Vy < 0 := by rw [hq]; norm_num
  obtain ⟨-, hsVy, hsG⟩ := screenBoundaries_vertical (moveAndCollide g k)
  have hG : (Update g k).player.OnGround = false := by
    simp only [Update, resetIfFallen]
    split
    · rfl
    · rw [hsG]; exact collideAndMove_OnGround_of_neg _ _ hneg
  have hV : (Update g k).player.Vy = 0 ∨ (Update g k).player.Vy = -33 / 5 := by
    simp only [Update, resetIfFallen]
    split
    · left; rfl
    · rw [hsVy, ← hq]; exact collideAndMove_Vy _ _
  obtain ⟨hVy2, hG2⟩ := HandleInput_jump (Update g k).player k2
  simp only [hG, Bool.and_false, Bool.false_eq_true, if_false] at hVy2 hG2
  refine ⟨hG, hVy2, hG2, ?_⟩
  rw [hVy2]
  rcases hV with h | h <;> rw [h] <;> norm_num

/-- C8, witness: a jump from rest on the floor of the level, with space reported
as just pressed again in the next frame. -/
theorem no_jump_retrigger_witness :
    (Update ⟨⟨100, 408, 0, 0, true⟩, world.GetInitialPlatforms⟩
      ⟨false, false, true⟩).player.OnGround = false ∧
    ((Update ⟨⟨100, 408, 0, 0, true⟩, world.GetInitialPlatforms⟩
      ⟨false, false, true⟩).player.HandleInput ⟨false, false, true⟩).Vy ≠ -7 :=
  have h := no_jump_retrigger ⟨⟨100, 408, 0, 0, true⟩, world.GetInitialPlatforms⟩
    ⟨false, false, true⟩ ⟨false, false, true⟩ rfl rfl
  ⟨h.1, h.2.2.2⟩

/-- C9. `ApplyGravity` adds 0.4 to `Vy` and clamps it at 8: the result has
`Vy = min (Vy + 0.4) 8`, hence `Vy <= 8`, and `X`, `Y`, `Vx` and `OnGround` are
unchanged, whatever the value of `OnGround`. -/
theorem ApplyGravity_clamped (p : Player) :
    p.ApplyGravity.Vy = min (p.Vy + 2 / 5) 8 ∧ p.ApplyGravity.Vy ≤ 8 ∧
    p.ApplyGravity.X = p.X ∧ p.ApplyGravity.Y = p.Y ∧ p.ApplyGravity.Vx = p.Vx ∧
    p.ApplyGravity.OnGround = p.OnGround := by
  refine ⟨ApplyGravity_Vy p, ?_, ApplyGravity_rest p⟩
  rw [ApplyGravity_Vy]
  exact min_le_right _ _

end game

/-! ## Free fall in exact arithmetic -/

namespace game

open player

/-- One frame of free fall in exact arithmetic: gravity acts on `Vy` and `Y`
moves by the new `Vy`. -/
theorem freeFallFrame_step (g : Game) (k : Keys) (h : freeFallFrame g k = true) :
    (Update g k).player.Vy = min (g.player.Vy + 2 / 5) 8 ∧
    (Update g k).player.Y = g.player.Y + (Update g k).player.Vy := by
  simp only [freeFallFrame, Bool.and_eq_true, Bool.not_eq_true', decide_eq_false_iff_not,
    List.all_eq_true] at h
  obtain ⟨⟨hj, hall⟩, hres⟩ := h
  have hVy0 : (g.player.HandleInput k).Vy = g.player.Vy := by
    rw [(HandleInput_jump g.player k).1, hj]; simp
  have hq : (afterGravity g k).Vy = min (g.player.Vy + 2 / 5) 8 := by
    rw [afterGravity, ApplyGravity_Vy, hVy0]
  have hqY : (afterGravity g k).Y = g.player.Y := by
    simp [afterGravity, (ApplyGravity_rest _).2.1, (HandleInput_pos _ _).2]
  have hfind : g.platforms.find? (fun p => (afterGravity g k).NextRectY.Overlaps p) = none := by
    rw [List.find?_eq_none]
    intro p hp
    simpa using hall p hp
  have hm := collideAndMove_eq (afterGravity g k) g.platforms
  rw [hfind] at hm
  obtain ⟨hsY, hsVy, -⟩ := screenBoundaries_vertical (moveAndCollide g k)
  have hle : (moveAndCollide g k).Y ≤ 480 := by
    have := not_lt.mp hres
    simpa [ScreenHeight, world.ScreenHeight] using this
  have hr := resetIfFallen_of_le (screenBoundaries (moveAndCollide g k)) (by rw [hsY]; exact hle)
  have hV : (Update g k).player.Vy = (afterGravity g k).Vy := by
    simp only [Update, hr, hsVy]
    simp [moveAndCollide, hm]
  have hY : (Update g k).player.Y = (afterGravity g k).Y + (afterGravity g k).Vy := by
    simp only [Update, hr, hsY]
    simp [moveAndCollide, hm]
  exact ⟨by rw [hV, hq], by rw [hY, hV, hqY]⟩

/-- Clamping after each of `n + 1` additions equals clamping once at the end. -/
theorem min_gravity_succ (v : ℚ) (n : ℕ) :
    min (min (v + 2 / 5) 8 + 2 / 5 * (n : ℚ)) 8 = min (v + 2 / 5 * ((n + 1 : ℕ) : ℚ)) 8 := by
  have hn : (0 : ℚ) ≤ (n : ℚ) := Nat.cast_nonneg n
  push_cast
  rcases le_or_lt (v + 2 / 5) 8 with h | h
  · rw [min_eq_left h]
    congr 1
    ring
  · rw [min_eq_right h.le, min_eq_right (by linarith), min_eq_right (by linarith)]

/-- The vertical velocity after a run of free fall in exact arithmetic, in
closed form. In float64 arithmetic the closed form holds only up to rounding,
see `rounded_run_error`. -/
theorem freeFallRun_Vy (ks : List Keys) : ∀ g : Game, freeFallRun g ks = true →
    (frames g ks).player.Vy = min (g.player.Vy + 2 / 5 * (ks.length : ℚ)) 8 ∨
    (ks = [] ∧ (frames g ks).player.Vy = g.player.Vy) := by
  induction ks with
  | nil => intro g _; right; exact ⟨rfl, rfl⟩
  | cons k ks ih =>
    intro g h
    left
    simp only [freeFallRun, Bool.and_eq_true] at h
    obtain ⟨h1, h2⟩ := h
    have hstep := (freeFallFrame_step g k h1).1
    rcases ih (Update g k) h2 with h3 | ⟨h3, h4⟩
    · simp only [frames, List.length_cons]
      rw [h3, hstep, min_gravity_succ]
    · subst h3
      simp only [frames, List.length_cons, List.length_nil]
      rw [hstep]
      norm_num

end game

/-! ## Facts about rounding to float64 -/

namespace Go

theorem pow2_eq (e : ℤ) : pow2 e = (2 : ℚ) ^ e := by
  unfold pow2
  split
  · rename_i h
    conv_rhs => rw [← Int.toNat_of_nonneg h]
    rw [zpow_natCast]
  · rename_i h
    have h' : 0 ≤ -e := by omega
    conv_rhs => rw [← neg_neg e, zpow_neg, ← Int.toNat_of_nonneg h']
    rw [zpow_natCast, one_div]

theorem pow2_pos (e : ℤ) : 0 < pow2 e := by
  rw [pow2_eq]; positivity

theorem pow2_add (a b : ℤ) : pow2 (a + b) = pow2 a * pow2 b := by
  simp only [pow2_eq]
  exact zpow_add₀ (by norm_num) a b

theorem pow2_le_pow2 {a b : ℤ} (h : a ≤ b) : pow2 a ≤ pow2 b := by
  simp only [pow2_eq]
  exact zpow_le_zpow_right₀ (by norm_num) h

theorem pow2_lt_pow2 {a b : ℤ} (h : a < b) : pow2 a < pow2 b := by
  simp only [pow2_eq]
  exact zpow_lt_zpow_right₀ (by norm_num) h

theorem log2Fuel_spec : ∀ (fuel n : ℕ), n ≤ fuel → 1 ≤ n →
    2 ^ log2Fuel fuel n ≤ n ∧ n < 2 ^ (log2Fuel fuel n + 1) := by
  intro fuel
  induction fuel with
  | zero => intro n h1 h2; omega
  | succ fuel ih =>
    intro n h1 h2
    unfold log2Fuel
    split
    · rename_i h
      obtain ⟨a, b⟩ := ih (n / 2) (by omega) (by omega)
      rw [pow_succ] at b
      rw [pow_succ, pow_succ, pow_succ]
      constructor <;> omega
    · simp
      omega

theorem ilog2_spec (n : ℕ) (h : 1 ≤ n) : 2 ^ ilog2 n ≤ n ∧ n < 2 ^ (ilog2 n + 1) :=
  log2Fuel_spec n n le_rfl h

end Go

namespace Go

theorem abs_eq_natAbs_div_den (q : ℚ) : |q| = (q.num.natAbs : ℚ) / (q.den : ℚ) := by
  have hd : (0 : ℚ) < q.den := by exact_mod_cast q.den_pos
  conv_lhs => rw [← Rat.num_div_den q]
  rw [abs_div, abs_of_pos hd]
  congr 1
  rw [Nat.cast_natAbs, Int.cast_abs]

theorem binade_spec (q : ℚ) (hq : q ≠ 0) :
    pow2 (binade q) ≤ |q| ∧ |q| < pow2 (binade q + 1) := by
  have hn : 1 ≤ q.num.natAbs := by
    have : q.num ≠ 0 := Rat.num_ne_zero.mpr hq
    omega
  have hd : 1 ≤ q.den := q.den_pos
  obtain ⟨a1, a2⟩ := ilog2_spec _ hn
  obtain ⟨b1, b2⟩ := ilog2_spec _ hd
  have a1' : (2 : ℚ) ^ ilog2 q.num.natAbs ≤ (q.num.natAbs : ℚ) := by exact_mod_cast a1
  have a2' : (q.num.natAbs : ℚ) < (2 : ℚ) ^ (ilog2 q.num.natAbs + 1) := by exact_mod_cast a2
  have b1' : (2 : ℚ) ^ ilog2 q.den ≤ (q.den : ℚ) := by exact_mod_cast b1
  have b2' : (q.den : ℚ) < (2 : ℚ) ^ (ilog2 q.den + 1) := by exact_mod_cast b2
  have hdq : (0 : ℚ) < q.den := by exact_mod_cast q.den_pos
  have habs := abs_eq_natAbs_div_den q
  have hpa : (0 : ℚ) < (2 : ℚ) ^ ilog2 q.num.natAbs := by positivity
  have hpb : (0 : ℚ) < (2 : ℚ) ^ ilog2 q.den := by positivity
  have e0 : ∀ c : ℤ, pow2 ((ilog2 q.num.natAbs : ℤ) - (ilog2 q.den : ℤ) + c)
      = (2 : ℚ) ^ ilog2 q.num.natAbs / (2 : ℚ) ^ ilog2 q.den * (2 : ℚ) ^ c := by
    intro c
    rw [pow2_eq, zpow_add₀ (by norm_num), zpow_sub₀ (by norm_num), zpow_natCast, zpow_natCast]
  have hup : |q| < pow2 ((ilog2 q.num.natAbs : ℤ) - (ilog2 q.den : ℤ) + 1) := by
    rw [e0 1, habs, zpow_one, div_lt_iff₀ hdq]
    rw [pow_succ] at a2'
    calc (q.num.natAbs : ℚ) < 2 ^ ilog2 q.num.natAbs * 2 := a2'
      _ = 2 ^ ilog2 q.num.natAbs / 2 ^ ilog2 q.den * 2 * 2 ^ ilog2 q.den := by
        field_simp
      _ ≤ 2 ^ ilog2 q.num.natAbs / 2 ^ ilog2 q.den * 2 * q.den := by
        apply mul_le_mul_of_nonneg_left b1'
        positivity
  have hlo : pow2 ((ilog2 q.num.natAbs : ℤ) - (ilog2 q.den : ℤ) + (-1)) ≤ |q| := by
    rw [e0 (-1), habs, le_div_iff₀ hdq]
    rw [pow_succ] at b2'
    calc 2 ^ ilog2 q.num.natAbs / 2 ^ ilog2 q.den * (2 : ℚ) ^ (-1 : ℤ) * q.den
        ≤ 2 ^ ilog2 q.num.natAbs / 2 ^ ilog2 q.den * (2 : ℚ) ^ (-1 : ℤ)
          * (2 ^ ilog2 q.den * 2) := by
          apply mul_le_mul_of_nonneg_left b2'.le
          positivity
      _ = 2 ^ ilog2 q.num.natAbs := by
          rw [zpow_neg, zpow_one]
          field_simp
      _ ≤ (q.num.natAbs : ℚ) := a1'
  unfold binade
  simp only
  split
  · rename_i h
    exact ⟨h, hup⟩
  · rename_i h
    constructor
    · have : (ilog2 q.num.natAbs : ℤ) - (ilog2 q.den : ℤ) - 1
          = (ilog2 q.num.natAbs : ℤ) - (ilog2 q.den : ℤ) + (-1) := by ring
      rw [this]
      exact hlo
    · have : (ilog2 q.num.natAbs : ℤ) - (ilog2 q.den : ℤ) - 1 + 1
          = (ilog2 q.num.natAbs : ℤ) - (ilog2 q.den : ℤ) := by ring
      rw [this]
      exact not_le.mp h

/-- The binade is determined by the two bounds. -/
theorem binade_unique (q : ℚ) (e : ℤ) (h1 : pow2 e ≤ |q|) (h2 : |q| < pow2 (e + 1)) :
    binade q = e := by
  have hq : q ≠ 0 := by
    intro h
    rw [h, abs_zero] at h1
    exact absurd h1 (not_le.mpr (pow2_pos e))
  obtain ⟨s1, s2⟩ := binade_spec q hq
  by_contra hne
  rcases lt_or_gt_of_ne hne with h | h
  · have : pow2 (binade q + 1) ≤ pow2 e := pow2_le_pow2 (by omega)
    linarith
  · have : pow2 (e + 1) ≤ pow2 (binade q) := pow2_le_pow2 (by omega)
    linarith

theorem binade_mono (x y : ℚ) (hx : x ≠ 0) (h : |x| ≤ |y|) : binade x ≤ binade y := by
  have hy : y ≠ 0 := by
    intro hy
    rw [hy, abs_zero] at h
    exact hx (abs_nonpos_iff.mp h)
  obtain ⟨x1, x2⟩ := binade_spec x hx
  obtain ⟨y1, y2⟩ := binade_spec y hy
  by_contra hlt
  have : pow2 (binade y + 1) ≤ pow2 (binade x) := pow2_le_pow2 (by omega)
  linarith

theorem binade_neg (q : ℚ) : binade (-q) = binade q := by
  unfold binade
  simp [Rat.neg_num, Rat.neg_den]

end Go

namespace Go

theorem floor_le_roundHalfEven (x : ℚ) : ⌊x⌋ ≤ roundHalfEven x := by
  unfold roundHalfEven
  split_ifs <;> omega

theorem roundHalfEven_le (x : ℚ) : roundHalfEven x ≤ ⌊x⌋ + 1 := by
  unfold roundHalfEven
  split_ifs <;> omega

theorem roundHalfEven_intCast (n : ℤ) : roundHalfEven (n : ℚ) = n := by
  unfold roundHalfEven
  simp

theorem roundHalfEven_mono {x y : ℚ} (h : x ≤ y) : roundHalfEven x ≤ roundHalfEven y := by
  have hf : ⌊x⌋ ≤ ⌊y⌋ := Int.floor_mono h
  rcases lt_or_eq_of_le hf with hlt | heq
  · have h1 := roundHalfEven_le x
    have h2 := floor_le_roundHalfEven y
    omega
  · unfold roundHalfEven
    rw [← heq]
    split_ifs <;> first | omega | (exfalso; linarith)

theorem roundHalfEven_error (x : ℚ) : |(roundHalfEven x : ℚ) - x| ≤ 1 / 2 := by
  have h1 : (⌊x⌋ : ℚ) ≤ x := Int.floor_le x
  have h2 : x < (⌊x⌋ : ℚ) + 1 := Int.lt_floor_add_one x
  unfold roundHalfEven
  rw [abs_le]
  split_ifs <;> push_cast <;> constructor <;> linarith

theorem roundHalfEven_nonneg {x : ℚ} (h : 0 ≤ x) : 0 ≤ roundHalfEven x :=
  (Int.floor_nonneg.mpr h).trans (floor_le_roundHalfEven x)

end Go

namespace Go

theorem ulpExponent_neg (q : ℚ) : ulpExponent (-q) = ulpExponent q := by
  unfold ulpExponent
  rw [binade_neg]

theorem float64_zero : float64 0 = 0 := by
  simp [float64]

theorem float64_of_pos {q : ℚ} (h : 0 < q) :
    float64 q = (roundHalfEven (q / pow2 (ulpExponent q)) : ℚ) * pow2 (ulpExponent q) := by
  unfold float64
  rw [if_neg h.ne', if_neg (not_lt.mpr h.le)]

theorem float64_neg (q : ℚ) : float64 (-q) = -float64 q := by
  rcases lt_trichotomy q 0 with h | h | h
  · have h' : 0 < -q := by linarith
    rw [float64_of_pos h', ulpExponent_neg]
    unfold float64
    rw [if_neg h.ne, if_pos h, neg_neg]
  · rw [h]; simp [float64_zero]
  · have h' : -q < 0 := by linarith
    rw [float64_of_pos h]
    unfold float64
    rw [if_neg h'.ne, if_pos h', ulpExponent_neg, neg_neg]

theorem float64_nonneg {q : ℚ} (h : 0 ≤ q) : 0 ≤ float64 q := by
  rcases eq_or_lt_of_le h with h0 | h0
  · rw [← h0, float64_zero]
  · rw [float64_of_pos h0]
    have h1 : 0 ≤ q / pow2 (ulpExponent q) := div_nonneg h (pow2_pos _).le
    have h2 : (0 : ℚ) ≤ roundHalfEven (q / pow2 (ulpExponent q)) := by
      exact_mod_cast roundHalfEven_nonneg h1
    exact mul_nonneg h2 (pow2_pos _).le

theorem ulpExponent_mono (x y : ℚ) (hx : x ≠ 0) (h : |x| ≤ |y|) :
    ulpExponent x ≤ ulpExponent y := by
  have := binade_mono x y hx h
  unfold ulpExponent
  omega

/-- A positive value is below `2 ^ 53` units in the last place. -/
theorem lt_pow2_ulpExponent {q : ℚ} (h : 0 < q) : q < pow2 (ulpExponent q + 53) := by
  obtain ⟨-, s2⟩ := binade_spec q h.ne'
  rw [abs_of_pos h] at s2
  have : pow2 (binade q + 1) ≤ pow2 (ulpExponent q + 53) := by
    apply pow2_le_pow2
    unfold ulpExponent
    omega
  linarith

/-- A positive value in the normal range is at least `2 ^ 52` units in the last
place. -/
theorem pow2_ulpExponent_le {q : ℚ} (h : 0 < q) (hn : -1022 ≤ binade q) :
    pow2 (ulpExponent q + 52) ≤ q := by
  obtain ⟨s1, -⟩ := binade_spec q h.ne'
  rw [abs_of_pos h] at s1
  have : ulpExponent q + 52 = binade q := by
    unfold ulpExponent
    omega
  rw [this]
  exact s1

theorem float64_mono_pos {x y : ℚ} (hx : 0 < x) (h : x ≤ y) : float64 x ≤ float64 y := by
  have hy : 0 < y := lt_of_lt_of_le hx h
  have habs : |x| ≤ |y| := by rw [abs_of_pos hx, abs_of_pos hy]; exact h
  have he := ulpExponent_mono x y hx.ne' habs
  rw [float64_of_pos hx, float64_of_pos hy]
  rcases lt_or_eq_of_le he with hlt | heq
  · -- different scales: `2 ^ (ex + 53)` separates the two results
    have hbx : binade x ≤ ulpExponent x + 52 := by unfold ulpExponent; omega
    have hny : -1022 ≤ binade y := by
      by_contra hc
      have e1 : ulpExponent y = -1074 := by unfold ulpExponent; omega
      have e2 : -1074 ≤ ulpExponent x := by unfold ulpExponent; omega
      omega
    have hx53 : x / pow2 (ulpExponent x) ≤ ((2 ^ 53 : ℤ) : ℚ) := by
      rw [div_le_iff₀ (pow2_pos _)]
      have h1 := lt_pow2_ulpExponent hx
      rw [add_comm, pow2_add] at h1
      have : pow2 53 = ((2 ^ 53 : ℤ) : ℚ) := by rw [pow2_eq]; norm_num
      rw [this] at h1
      exact h1.le
    have hmx : (roundHalfEven (x / pow2 (ulpExponent x)) : ℚ) ≤ ((2 ^ 53 : ℤ) : ℚ) := by
      have := roundHalfEven_mono hx53
      rw [roundHalfEven_intCast] at this
      exact_mod_cast this
    have hy52 : ((2 ^ 52 : ℤ) : ℚ) ≤ y / pow2 (ulpExponent y) := by
      rw [le_div_iff₀ (pow2_pos _)]
      have h1 := pow2_ulpExponent_le hy hny
      rw [add_comm, pow2_add] at h1
      have : pow2 52 = ((2 ^ 52 : ℤ) : ℚ) := by rw [pow2_eq]; norm_num
      rw [this] at h1
      exact h1
    have hmy : ((2 ^ 52 : ℤ) : ℚ) ≤ (roundHalfEven (y / pow2 (ulpExponent y)) : ℚ) := by
      have := roundHalfEven_mono hy52
      rw [roundHalfEven_intCast] at this
      exact_mod_cast this
    have hsc : pow2 (ulpExponent x) * 2 ≤ pow2 (ulpExponent y) := by
      have h1 : pow2 (ulpExponent x + 1) ≤ pow2 (ulpExponent y) := pow2_le_pow2 (by omega)
      rw [pow2_add] at h1
      have : pow2 1 = 2 := by rw [pow2_eq]; norm_num
      rw [this] at h1
      exact h1
    have px := pow2_pos (ulpExponent x)
    have py := pow2_pos (ulpExponent y)
    calc (roundHalfEven (x / pow2 (ulpExponent x)) : ℚ) * pow2 (ulpExponent x)
        ≤ ((2 ^ 53 : ℤ) : ℚ) * pow2 (ulpExponent x) :=
          mul_le_mul_of_nonneg_right hmx px.le
      _ = ((2 ^ 52 : ℤ) : ℚ) * (pow2 (ulpExponent x) * 2) := by push_cast; ring
      _ ≤ ((2 ^ 52 : ℤ) : ℚ) * pow2 (ulpExponent y) :=
          mul_le_mul_of_nonneg_left hsc (by norm_num)
      _ ≤ (roundHalfEven (y / pow2 (ulpExponent y)) : ℚ) * pow2 (ulpExponent y) :=
          mul_le_mul_of_nonneg_right hmy py.le
  · rw [heq]
    have hp := pow2_pos (ulpExponent y)
    apply mul_le_mul_of_nonneg_right _ hp.le
    have : x / pow2 (ulpExponent y) ≤ y / pow2 (ulpExponent y) :=
      div_le_div_of_nonneg_right h hp.le
    exact_mod_cast roundHalfEven_mono this

/-- Rounding to float64 is monotone. -/
theorem float64_mono {x y : ℚ} (h : x ≤ y) : float64 x ≤ float64 y := by
  rcases lt_trichotomy x 0 with hx | hx | hx
  · rcases lt_or_le y 0 with hy | hy
    · have h1 : float64 (-y) ≤ float64 (-x) := float64_mono_pos (by linarith) (by linarith)
      rw [float64_neg, float64_neg] at h1
      linarith
    · have h1 : 0 ≤ float64 (-x) := float64_nonneg (by linarith)
      rw [float64_neg] at h1
      have h2 := float64_nonneg hy
      linarith
  · rw [hx, float64_zero]
    exact float64_nonneg (by linarith)
  · exact float64_mono_pos hx h

end Go

namespace Go

theorem minExponent_le_ulpExponent (q : ℚ) : -1074 ≤ ulpExponent q := by
  unfold ulpExponent
  omega

/-- A positive multiple of its own unit in the last place is a float64 value. -/
theorem float64_of_grid {q : ℚ} (hq : 0 < q) (z : ℤ) (h : q = (z : ℚ) * pow2 (ulpExponent q)) :
    float64 q = q := by
  rw [float64_of_pos hq]
  have hp := pow2_pos (ulpExponent q)
  have hz : q / pow2 (ulpExponent q) = (z : ℚ) := by
    rw [div_eq_iff hp.ne']
    exact h
  rw [hz, roundHalfEven_intCast]
  exact h.symm

theorem pow2_natCast (t : ℕ) : pow2 (t : ℤ) = ((2 ^ t : ℤ) : ℚ) := by
  rw [pow2_eq, zpow_natCast]
  push_cast
  rfl

theorem float64_idem_pos {q : ℚ} (hq : 0 < q) : float64 (float64 q) = float64 q := by
  have hp := pow2_pos (ulpExponent q)
  have hfl := float64_of_pos hq
  have hm0 : 0 ≤ roundHalfEven (q / pow2 (ulpExponent q)) :=
    roundHalfEven_nonneg (div_nonneg hq.le hp.le)
  have hm53 : roundHalfEven (q / pow2 (ulpExponent q)) ≤ 2 ^ 53 := by
    have h1 : q / pow2 (ulpExponent q) ≤ ((2 ^ 53 : ℤ) : ℚ) := by
      rw [div_le_iff₀ hp]
      have h2 := lt_pow2_ulpExponent hq
      rw [add_comm, pow2_add] at h2
      have : pow2 53 = ((2 ^ 53 : ℤ) : ℚ) := by rw [pow2_eq]; norm_num
      rw [this] at h2
      exact h2.le
    have := roundHalfEven_mono h1
    rw [roundHalfEven_intCast] at this
    exact this
  generalize hm : roundHalfEven (q / pow2 (ulpExponent q)) = m at hfl hm0 hm53
  have hE := minExponent_le_ulpExponent q
  generalize he : ulpExponent q = e at hfl hp hE
  rcases eq_or_lt_of_le hm0 with h0 | h0
  · rw [hfl, ← h0]
    simp [float64_zero]
  · have hr : 0 < float64 q := by
      rw [hfl]
      exact mul_pos (by exact_mod_cast h0) hp
    rcases eq_or_lt_of_le hm53 with h53 | h53
    · -- the significand has reached `2 ^ 53`: the result is the power `2 ^ (e + 53)`
      have hval : float64 q = pow2 (e + 53) := by
        rw [hfl, h53, add_comm, pow2_add]
        have : pow2 53 = ((2 ^ 53 : ℤ) : ℚ) := by rw [pow2_eq]; norm_num
        rw [this]
      have hb : binade (float64 q) = e + 53 := by
        apply binade_unique
        · rw [abs_of_pos hr, hval]
        · rw [abs_of_pos hr, hval]
          exact pow2_lt_pow2 (by omega)
      have hu : ulpExponent (float64 q) = e + 1 := by
        unfold ulpExponent
        rw [hb]
        omega
      apply float64_of_grid hr (2 ^ 52)
      rw [hu, hval]
      have : e + 53 = 52 + (e + 1) := by ring
      rw [this, pow2_add]
      have : pow2 52 = ((2 ^ 52 : ℤ) : ℚ) := by rw [pow2_eq]; norm_num
      rw [this]
    · -- the result stays below `2 ^ (e + 53)`: its unit is not above `2 ^ e`
      have hlt : float64 q < pow2 (e + 53) := by
        rw [hfl, add_comm, pow2_add]
        have : pow2 53 = ((2 ^ 53 : ℤ) : ℚ) := by rw [pow2_eq]; norm_num
        rw [this]
        apply mul_lt_mul_of_pos_right _ hp
        exact_mod_cast h53
      have hb : binade (float64 q) < e + 53 := by
        by_contra hc
        obtain ⟨s1, -⟩ := binade_spec (float64 q) hr.ne'
        rw [abs_of_pos hr] at s1
        have : pow2 (e + 53) ≤ pow2 (binade (float64 q)) := pow2_le_pow2 (by omega)
        linarith
      have hu : ulpExponent (float64 q) ≤ e := by
        unfold ulpExponent
        omega
      obtain ⟨t, ht⟩ : ∃ t : ℕ, e = ulpExponent (float64 q) + (t : ℤ) :=
        ⟨(e - ulpExponent (float64 q)).toNat, by omega⟩
      apply float64_of_grid hr (m * 2 ^ t)
      conv_lhs => rw [hfl, ht, add_comm, pow2_add, pow2_natCast]
      push_cast
      ring

/-- Rounding a float64 value gives the value back. -/
theorem float64_idem (q : ℚ) : float64 (float64 q) = float64 q := by
  rcases lt_trichotomy q 0 with h | h | h
  · have h1 := float64_idem_pos (q := -q) (by linarith)
    rw [float64_neg, float64_neg] at h1
    exact neg_injective h1
  · rw [h, float64_zero, float64_zero]
  · exact float64_idem_pos h

/-- The rounding error is at most half a unit in the last place. -/
theorem float64_error (q : ℚ) : |float64 q - q| ≤ pow2 (ulpExponent q) / 2 := by
  have key : ∀ x : ℚ, 0 < x → |float64 x - x| ≤ pow2 (ulpExponent x) / 2 := by
    intro x hx
    have hp := pow2_pos (ulpExponent x)
    rw [float64_of_pos hx]
    have h1 := roundHalfEven_error (x / pow2 (ulpExponent x))
    have h2 : (roundHalfEven (x / pow2 (ulpExponent x)) : ℚ) * pow2 (ulpExponent x) - x
        = ((roundHalfEven (x / pow2 (ulpExponent x)) : ℚ) - x / pow2 (ulpExponent x))
          * pow2 (ulpExponent x) := by
      field_simp
    rw [h2, abs_mul, abs_of_pos hp]
    calc |(roundHalfEven (x / pow2 (ulpExponent x)) : ℚ) - x / pow2 (ulpExponent x)|
          * pow2 (ulpExponent x)
        ≤ 1 / 2 * pow2 (ulpExponent x) := mul_le_mul_of_nonneg_right h1 hp.le
      _ = pow2 (ulpExponent x) / 2 := by ring
  rcases lt_trichotomy q 0 with h | h | h
  · have h1 := key (-q) (by linarith)
    rw [float64_neg, ulpExponent_neg] at h1
    have : -float64 q - -q = -(float64 q - q) := by ring
    rw [this, abs_neg] at h1
    exact h1
  · rw [h, float64_zero, sub_zero, abs_zero]
    exact (div_pos (pow2_pos _) (by norm_num)).le
  · exact key q h

end Go

/-! ## Free fall in float64 arithmetic -/

namespace game

open player

/-- The float64 constant `0.4`. -/
theorem rounded_gravity_eq : rounded.gravity = 3602879701896397 / 9007199254740992 := by
  decide!

/-- The value 8 is a float64 value. -/
theorem float64_eight : Go.float64 8 = 8 := by
  decide!

/-- Below 16 in absolute value the rounding error is at most `2 ^ (-50)`. -/
theorem float64_error_of_lt {x : ℚ} (h : |x| < 16) : |Go.float64 x - x| ≤ 1 / 2 ^ 50 := by
  by_cases hx : x = 0
  · rw [hx, Go.float64_zero, sub_zero, abs_zero]
    positivity
  · have he := Go.float64_error x
    obtain ⟨s1, -⟩ := Go.binade_spec x hx
    have hb : Go.binade x < 4 := by
      by_contra hc
      have h4 : Go.pow2 4 ≤ Go.pow2 (Go.binade x) := Go.pow2_le_pow2 (by omega)
      have : Go.pow2 4 = 16 := by rw [Go.pow2_eq]; norm_num
      linarith
    have hu : Go.ulpExponent x ≤ -49 := by
      unfold Go.ulpExponent
      omega
    have hp : Go.pow2 (Go.ulpExponent x) ≤ Go.pow2 (-49) := Go.pow2_le_pow2 hu
    have h49 : Go.pow2 (-49) = 1 / 2 ^ 49 := by
      rw [Go.pow2_eq, zpow_neg, one_div]
      norm_num
    rw [h49] at hp
    calc |Go.float64 x - x| ≤ Go.pow2 (Go.ulpExponent x) / 2 := he
      _ ≤ 1 / 2 ^ 49 / 2 := by linarith
      _ = 1 / 2 ^ 50 := by norm_num

/-- The vertical loop in float64 arithmetic finds nothing when no platform
overlaps the box. -/
theorem rounded_checkVertical_none (r : image.Rectangle) (pl : Player)
    (ps : List world.Platform) (h : ∀ p ∈ ps, r.Overlaps p = false) :
    rounded.checkVertical r pl ps = (pl, false) := by
  induction ps with
  | nil => rfl
  | cons p ps ih =>
    have hp : r.Overlaps p = false := h p (List.mem_cons_self p ps)
    simp only [rounded.checkVertical, hp, Bool.false_eq_true, if_false]
    exact ih (fun q hq => h q (List.mem_cons_of_mem p hq))

/-- Gravity in float64 arithmetic: one rounded addition, then the clamp. -/
theorem rounded_ApplyGravity_eq (p : Player) :
    (rounded.ApplyGravity p).Vy = min (Go.float64 (p.Vy + rounded.gravity)) 8 ∧
    (rounded.ApplyGravity p).X = p.X ∧ (rounded.ApplyGravity p).Y = p.Y := by
  simp only [rounded.ApplyGravity, maxFallSpeed]
  by_cases h : Go.float64 (p.Vy + rounded.gravity) > 8
  · simp [h, min_eq_right h.le]
  · simp [h, min_eq_left (not_lt.mp h)]

/-- The screen-edge step in float64 arithmetic touches only `X` and `Vx`. -/
theorem rounded_screenBoundaries_vertical (pl : Player) :
    (rounded.screenBoundaries pl).Y = pl.Y ∧ (rounded.screenBoundaries pl).Vy = pl.Vy := by
  unfold rounded.screenBoundaries
  split
  · simp
  · split <;> simp

/-- Steps 3 and 4 in float64 arithmetic when no platform overlaps `NextRectY`:
`Vy` is kept and `Y` moves by it. -/
theorem rounded_collideAndMove_free (q : Player) (ps : List world.Platform)
    (hnone : ∀ p ∈ ps, (rounded.NextRectY q).Overlaps p = false) :
    (rounded.collideAndMove q ps).Vy = q.Vy ∧
    (rounded.collideAndMove q ps).Y = Go.float64 (q.Y + q.Vy) := by
  have hrY : rounded.NextRectY ({ q with OnGround := false } : Player) = rounded.NextRectY q :=
    rfl
  simp only [rounded.collideAndMove, hrY, rounded_checkVertical_none _ _ _ hnone,
    checkHorizontal_eq]
  cases hX : ps.any
      (fun p => (rounded.NextRectX ({ q with OnGround := false } : Player)).Overlaps p) <;>
    simp [Player.HandleCollisionX]

/-- One frame of free fall in float64 arithmetic. -/
theorem rounded_freeFallFrame_step (g : Game) (k : Keys)
    (h : rounded.freeFallFrame g k = true) :
    (rounded.Update g k).player.Vy = min (Go.float64 (g.player.Vy + rounded.gravity)) 8 ∧
    (rounded.Update g k).player.Y
      = Go.float64 (g.player.Y + (rounded.Update g k).player.Vy) := by
  simp only [rounded.freeFallFrame, Bool.and_eq_true, Bool.not_eq_true', decide_eq_false_iff_not,
    List.all_eq_true] at h
  obtain ⟨⟨hj, hall⟩, hres⟩ := h
  have hVy0 : (g.player.HandleInput k).Vy = g.player.Vy := by
    rw [(HandleInput_jump g.player k).1, hj]; simp
  obtain ⟨gV, -, gY⟩ := rounded_ApplyGravity_eq (g.player.HandleInput k)
  have hq : (rounded.afterGravity g k).Vy = min (Go.float64 (g.player.Vy + rounded.gravity)) 8 := by
    rw [rounded.afterGravity, gV, hVy0]
  have hqY : (rounded.afterGravity g k).Y = g.player.Y := by
    rw [rounded.afterGravity, gY, (HandleInput_pos _ _).2]
  have hnone : ∀ p ∈ g.platforms,
      (rounded.NextRectY (rounded.afterGravity g k)).Overlaps p = false := by
    intro p hp
    simpa using hall p hp
  have hm := rounded_collideAndMove_free (rounded.afterGravity g k) g.platforms hnone
  change (rounded.moveAndCollide g k).Vy = (rounded.afterGravity g k).Vy ∧
      (rounded.moveAndCollide g k).Y
        = Go.float64 ((rounded.afterGravity g k).Y + (rounded.afterGravity g k).Vy) at hm
  obtain ⟨hsY, hsVy⟩ := rounded_screenBoundaries_vertical (rounded.moveAndCollide g k)
  have hle : (rounded.moveAndCollide g k).Y ≤ 480 := by
    have := not_lt.mp hres
    simpa [ScreenHeight, world.ScreenHeight] using this
  have hr := resetIfFallen_of_le (rounded.screenBoundaries (rounded.moveAndCollide g k))
    (by rw [hsY]; exact hle)
  have hV : (rounded.Update g k).player.Vy = (rounded.afterGravity g k).Vy := by
    simp only [rounded.Update, hr, hsVy, hm.1]
  have hY : (rounded.Update g k).player.Y
      = Go.float64 ((rounded.afterGravity g k).Y + (rounded.afterGravity g k).Vy) := by
    simp only [rounded.Update, hr, hsY, hm.2]
  exact ⟨by rw [hV, hq], by rw [hY, hV, hqY]⟩

/-- The clamped float64 sum is a float64 value of at most 8. -/
theorem float64_min_eight (x : ℚ) :
    Go.float64 (min (Go.float64 x) 8) = min (Go.float64 x) 8 ∧ min (Go.float64 x) 8 ≤ 8 := by
  refine ⟨?_, min_le_right _ _⟩
  rcases le_total (Go.float64 x) 8 with h | h
  · rw [min_eq_left h, Go.float64_idem]
  · rw [min_eq_right h, float64_eight]

/-- Adding the float64 constant `0.4` to a float64 value does not decrease it. -/
theorem le_float64_add_gravity {v : ℚ} (hv : Go.float64 v = v) :
    v ≤ Go.float64 (v + rounded.gravity) := by
  have hg : 0 ≤ rounded.gravity := by rw [rounded_gravity_eq]; norm_num
  have := Go.float64_mono (x := v) (y := v + rounded.gravity) (by linarith)
  rw [hv] at this
  exact this

end game

namespace game

open player

/-- One clamped float64 addition of `0.4` against the exact one: the results
differ by at most `2 ^ (-49)`, and the float64 result is not below -8. -/
theorem gravity_step_error (v : ℚ) (h1 : -8 ≤ v) (h2 : v ≤ 8) :
    |min (Go.float64 (v + rounded.gravity)) 8 - min (v + 2 / 5) 8| ≤ 1 / 2 ^ 49 ∧
    -8 ≤ min (Go.float64 (v + rounded.gravity)) 8 := by
  have hg := rounded_gravity_eq
  have hlt : |v + rounded.gravity| < 16 := by
    rw [hg, abs_lt]
    constructor <;> linarith
  have he := float64_error_of_lt hlt
  have hgerr : |rounded.gravity - 2 / 5| ≤ 1 / 2 ^ 50 := by
    rw [hg]
    norm_num [abs_le]
  constructor
  · have hmin := abs_min_sub_min_le_max (Go.float64 (v + rounded.gravity)) 8 (v + 2 / 5) 8
    rw [sub_self, abs_zero, max_eq_left (abs_nonneg _)] at hmin
    have htri : |Go.float64 (v + rounded.gravity) - (v + 2 / 5)|
        ≤ |Go.float64 (v + rounded.gravity) - (v + rounded.gravity)|
          + |rounded.gravity - 2 / 5| := by
      have : Go.float64 (v + rounded.gravity) - (v + 2 / 5)
          = (Go.float64 (v + rounded.gravity) - (v + rounded.gravity))
            + (rounded.gravity - 2 / 5) := by ring
      rw [this]
      exact abs_add _ _
    have : (1 : ℚ) / 2 ^ 50 + 1 / 2 ^ 50 = 1 / 2 ^ 49 := by norm_num
    linarith
  · have hm : Go.float64 (-8) ≤ Go.float64 (v + rounded.gravity) := by
      apply Go.float64_mono
      rw [hg]
      linarith
    rw [Go.float64_neg, float64_eight] at hm
    exact le_min hm (by norm_num)

/-- The frames after the first one start from the state that it has produced. -/
theorem rounded_frames_cons (g : Game) (k : Keys) (ks : List Keys) :
    rounded.frames g (k :: ks) = rounded.frames (rounded.Update g k) ks := by
  rw [rounded.frames]

/-- After a run of free fall in float64 arithmetic the vertical velocity is a
float64 value of at most 8. -/
theorem rounded_run_float64 (ks : List Keys) : ∀ (g : Game) (k : Keys),
    rounded.freeFallRun g (k :: ks) = true →
    Go.float64 (rounded.frames g (k :: ks)).player.Vy = (rounded.frames g (k :: ks)).player.Vy ∧
    (rounded.frames g (k :: ks)).player.Vy ≤ 8 := by
  induction ks with
  | nil =>
    intro g k h
    simp only [rounded.freeFallRun, Bool.and_true] at h
    rw [rounded_frames_cons, rounded.frames]
    rw [(rounded_freeFallFrame_step g k h).1]
    exact float64_min_eight _
  | cons k2 ks ih =>
    intro g k h
    rw [rounded.freeFallRun, Bool.and_eq_true] at h
    have h3 := ih (rounded.Update g k) k2 h.2
    rw [rounded_frames_cons g k (k2 :: ks)]
    exact h3

/-- The closed form holds up to rounding: after `n` frames of free fall in
float64 arithmetic from a `Vy` in [-8, 8], the velocity differs from
`min (Vy + 0.4 * n) 8` by at most `n * 2 ^ (-49)`. -/
theorem rounded_run_error (ks : List Keys) : ∀ g : Game,
    rounded.freeFallRun g ks = true → -8 ≤ g.player.Vy → g.player.Vy ≤ 8 →
    |(rounded.frames g ks).player.Vy - min (g.player.Vy + 2 / 5 * (ks.length : ℚ)) 8|
      ≤ (ks.length : ℚ) / 2 ^ 49 := by
  induction ks with
  | nil =>
    intro g _ _ h2
    simp [rounded.frames, min_eq_left h2]
  | cons k ks ih =>
    intro g h h1 h2
    rw [rounded.freeFallRun, Bool.and_eq_true] at h
    have hstep := (rounded_freeFallFrame_step g k h.1).1
    obtain ⟨e1, e2⟩ := gravity_step_error g.player.Vy h1 h2
    have hle : (rounded.Update g k).player.Vy ≤ 8 := by rw [hstep]; exact min_le_right _ _
    have hge : -8 ≤ (rounded.Update g k).player.Vy := by rw [hstep]; exact e2
    have hih := ih (rounded.Update g k) h.2 hge hle
    have hsucc := min_gravity_succ g.player.Vy ks.length
    have hlip := abs_min_sub_min_le_max
      ((rounded.Update g k).player.Vy + 2 / 5 * (ks.length : ℚ)) 8
      (min (g.player.Vy + 2 / 5) 8 + 2 / 5 * (ks.length : ℚ)) 8
    rw [sub_self, abs_zero, max_eq_left (abs_nonneg _), hsucc] at hlip
    have hd : (rounded.Update g k).player.Vy + 2 / 5 * (ks.length : ℚ)
        - (min (g.player.Vy + 2 / 5) 8 + 2 / 5 * (ks.length : ℚ))
        = (rounded.Update g k).player.Vy - min (g.player.Vy + 2 / 5) 8 := by ring
    rw [hd, hstep] at hlip
    rw [rounded_frames_cons]
    simp only [List.length_cons]
    have htri : |(rounded.frames (rounded.Update g k) ks).player.Vy
          - min (g.player.Vy + 2 / 5 * ((ks.length + 1 : ℕ) : ℚ)) 8|
        ≤ |(rounded.frames (rounded.Update g k) ks).player.Vy
            - min ((rounded.Update g k).player.Vy + 2 / 5 * (ks.length : ℚ)) 8|
          + |min ((rounded.Update g k).player.Vy + 2 / 5 * (ks.length : ℚ)) 8
            - min (g.player.Vy + 2 / 5 * ((ks.length + 1 : ℕ) : ℚ)) 8| := by
      have : (rounded.frames (rounded.Update g k) ks).player.Vy
          - min (g.player.Vy + 2 / 5 * ((ks.length + 1 : ℕ) : ℚ)) 8
          = ((rounded.frames (rounded.Update g k) ks).player.Vy
            - min ((rounded.Update g k).player.Vy + 2 / 5 * (ks.length : ℚ)) 8)
          + (min ((rounded.Update g k).player.Vy + 2 / 5 * (ks.length : ℚ)) 8
            - min (g.player.Vy + 2 / 5 * ((ks.length + 1 : ℕ) : ℚ)) 8) := by ring
      rw [this]
      exact abs_add _ _
    have hfin : ((ks.length + 1 : ℕ) : ℚ) / 2 ^ 49 = (ks.length : ℚ) / 2 ^ 49 + 1 / 2 ^ 49 := by
      push_cast
      ring
    rw [hfin]
    rw [hstep] at hih htri
    linarith

/-- C10, as the code has it. Free fall is monotonic and clamped, in the float64
arithmetic of the code. For a run `k :: ks` of consecutive frames of `Update`
in which the jump does not fire, no platform overlaps `NextRectY` and the reset
does not trigger: the first frame ends with `Vy' = min (Vy + 0.4) 8`, the sum
being the float64 addition of the float64 constant 0.4, commits
`Y' = Y + Vy'` (a float64 addition), and does not decrease a float64 value
`Vy <= 8`; the velocity at the end of the run is a
float64 value of at most 8 and, from a `Vy` in [-8, 8], differs from the closed
form `min (Vy_0 + 0.4 * n) 8` by at most `n * 2 ^ (-49)`. For one more frame of
free fall after the run, with `Vy` the velocity at the end of the run and `Vy'`
the one after that frame: `Vy' = min (Vy + 0.4) 8`; `Vy'` is the float64 sum
`Vy + 0.4` while that sum is at most 8; `Vy <= Vy'` (never decreases);
`Vy' = 8` once `Vy = 8`; and the frame commits `Y' = Y + Vy'`. -/
theorem free_fall_float64 (g : Game) (k : Keys) (ks : List Keys)
    (h : rounded.freeFallRun g (k :: ks) = true) :
    ((rounded.Update g k).player.Vy = min (Go.float64 (g.player.Vy + rounded.gravity)) 8 ∧
      (rounded.Update g k).player.Y
        = Go.float64 (g.player.Y + (rounded.Update g k).player.Vy) ∧
      (Go.float64 g.player.Vy = g.player.Vy → g.player.Vy ≤ 8 →
        g.player.Vy ≤ (rounded.Update g k).player.Vy)) ∧
    (Go.float64 (rounded.frames g (k :: ks)).player.Vy
        = (rounded.frames g (k :: ks)).player.Vy ∧
      (rounded.frames g (k :: ks)).player.Vy ≤ 8) ∧
    ((-8 ≤ g.player.Vy ∧ g.player.Vy ≤ 8) →
      |(rounded.frames g (k :: ks)).player.Vy
          - min (g.player.Vy + 2 / 5 * ((k :: ks).length : ℚ)) 8|
        ≤ ((k :: ks).length : ℚ) / 2 ^ 49) ∧
    (∀ k2 : Keys, rounded.freeFallFrame (rounded.frames g (k :: ks)) k2 = true →
      (rounded.Update (rounded.frames g (k :: ks)) k2).player.Vy
        = min (Go.float64 ((rounded.frames g (k :: ks)).player.Vy + rounded.gravity)) 8 ∧
      (Go.float64 ((rounded.frames g (k :: ks)).player.Vy + rounded.gravity) ≤ 8 →
        (rounded.Update (rounded.frames g (k :: ks)) k2).player.Vy
          = Go.float64 ((rounded.frames g (k :: ks)).player.Vy + rounded.gravity)) ∧
      (rounded.frames g (k :: ks)).player.Vy
        ≤ (rounded.Update (rounded.frames g (k :: ks)) k2).player.Vy ∧
      ((rounded.frames g (k :: ks)).player.Vy = 8 →
        (rounded.Update (rounded.frames g (k :: ks)) k2).player.Vy = 8) ∧
      (rounded.Update (rounded.frames g (k :: ks)) k2).player.Y
        = Go.float64 ((rounded.frames g (k :: ks)).player.Y
          + (rounded.Update (rounded.frames g (k :: ks)) k2).player.Vy)) := by
  have hfirst : rounded.freeFallFrame g k = true := by
    rw [rounded.freeFallRun, Bool.and_eq_true] at h
    exact h.1
  obtain ⟨hfl, hle⟩ := rounded_run_float64 ks g k h
  obtain ⟨f1, f2⟩ := rounded_freeFallFrame_step g k hfirst
  refine ⟨⟨f1, f2, ?_⟩, ⟨hfl, hle⟩, ?_, ?_⟩
  · intro hv h8
    rw [f1]
    exact le_min (le_float64_add_gravity hv) h8
  · rintro ⟨h1, h2⟩
    exact rounded_run_error (k :: ks) g h h1 h2
  · intro k2 h2
    obtain ⟨hs1, hs2⟩ := rounded_freeFallFrame_step (rounded.frames g (k :: ks)) k2 h2
    have hmono := le_float64_add_gravity hfl
    refine ⟨hs1, ?_, ?_, ?_, hs2⟩
    · intro h3
      rw [hs1, min_eq_left h3]
    · rw [hs1]
      exact le_min hmono hle
    · intro h3
      rw [hs1]
      exact min_eq_right (h3.symm.le.trans hmono)

/-- C10, witness: the first two frames of a new game with no key held are free
fall in float64 arithmetic; the velocity after them is the float64 value 0.8. -/
theorem free_fall_float64_witness :
    rounded.freeFallRun NewGame [⟨false, false, false⟩, ⟨false, false, false⟩] = true ∧
    Go.float64 (rounded.frames NewGame
        [⟨false, false, false⟩, ⟨false, false, false⟩]).player.Vy
      = (rounded.frames NewGame [⟨false, false, false⟩, ⟨false, false, false⟩]).player.Vy ∧
    (rounded.frames NewGame [⟨false, false, false⟩, ⟨false, false, false⟩]).player.Vy
      = 3602879701896397 / 4503599627370496 :=
  ⟨by decide!,
   (free_fall_float64 NewGame ⟨false, false, false⟩ [⟨false, false, false⟩]
     (by decide!)).2.1.1,
   by decide!⟩

/-- C10, counterexample to the closed form. The first ten frames of a new game
with no key held are free fall. In float64 arithmetic the velocity after them
is 9007199254740991 / 2251799813685248, the float64 value just below 4 (printed
3.9999999999999996), while `min (0 + 0.4 * 10) 8` is 4, and ten times the
float64 constant 0.4 is above 4. -/
theorem free_fall_closed_form_fails :
    rounded.freeFallRun NewGame (List.replicate 10 ⟨false, false, false⟩) = true ∧
    (rounded.frames NewGame (List.replicate 10 ⟨false, false, false⟩)).player.Vy
      = 9007199254740991 / 2251799813685248 ∧
    min (NewGame.player.Vy + 2 / 5 * (10 : ℚ)) 8 = 4 ∧
    (rounded.frames NewGame (List.replicate 10 ⟨false, false, false⟩)).player.Vy
      ≠ min (NewGame.player.Vy + 2 / 5 * (10 : ℚ)) 8 ∧
    (rounded.frames NewGame (List.replicate 10 ⟨false, false, false⟩)).player.Vy
      ≠ min (NewGame.player.Vy + rounded.gravity * (10 : ℚ)) 8 := by
  have h1 : (rounded.frames NewGame (List.replicate 10 ⟨false, false, false⟩)).player.Vy
      = 9007199254740991 / 2251799813685248 := by decide!
  refine ⟨by decide!, h1, ?_, ?_, ?_⟩
  · norm_num [NewGame, NewPlayer]
  · rw [h1]
    norm_num [NewGame, NewPlayer]
  · rw [h1, rounded_gravity_eq]
    norm_num [NewGame, NewPlayer]

end game

/-! ## Input, ground flag and the order of the vertical check -/

namespace game

open player

/-- C11. Left takes priority in `HandleInput`: `Vx` becomes -3 if left is held
(also when right is held too), 3 if right is held and left is not, and 0 if
neither is held; the previous value of `Vx` has no influence on the result. -/
theorem left_takes_priority (p : Player) (k : Keys) (v : ℚ) :
    (p.HandleInput k).Vx = (if k.KeyLeft = true then -3 else if k.KeyRight = true then 3 else 0) ∧
    (Player.HandleInput { p with Vx := v } k).Vx = (p.HandleInput k).Vx ∧
    (p.HandleInput ⟨true, true, k.KeySpace⟩).Vx = -3 ∧
    (p.HandleInput ⟨true, false, k.KeySpace⟩).Vx = -3 ∧
    (p.HandleInput ⟨false, true, k.KeySpace⟩).Vx = 3 ∧
    (p.HandleInput ⟨false, false, k.KeySpace⟩).Vx = 0 := by
  refine ⟨HandleInput_Vx p k, ?_, ?_, ?_, ?_, ?_⟩
  · rw [HandleInput_Vx, HandleInput_Vx]
  all_goals simp [HandleInput_Vx]

/-- The vertical fields at the end of a frame, from those after steps 1 to 4. -/
theorem Update_vertical (g : Game) (k : Keys) :
    (Update g k).player.Y
      = (if 480 < (moveAndCollide g k).Y then 100 else (moveAndCollide g k).Y) ∧
    (Update g k).player.Vy
      = (if 480 < (moveAndCollide g k).Y then 0 else (moveAndCollide g k).Vy) ∧
    (Update g k).player.OnGround
      = (if 480 < (moveAndCollide g k).Y then false else (moveAndCollide g k).OnGround) := by
  obtain ⟨hsY, hsVy, hsG⟩ := screenBoundaries_vertical (moveAndCollide g k)
  by_cases h : 480 < (moveAndCollide g k).Y
  · have hr := resetIfFallen_of_gt (screenBoundaries (moveAndCollide g k)) (by rw [hsY]; exact h)
    simp [Update, hr, h]
  · have hr := resetIfFallen_of_le (screenBoundaries (moveAndCollide g k))
      (by rw [hsY]; exact not_lt.mp h)
    simp [Update, hr, h, hsY, hsVy, hsG]

/-- The vertical fields after steps 3 and 4 depend only on `Y`, `Vy` and the
first platform that overlaps `NextRectY`. -/
theorem collideAndMove_vertical_congr (q1 q2 : Player) (ps1 ps2 : List world.Platform)
    (hY : q1.Y = q2.Y) (hV : q1.Vy = q2.Vy)
    (hf : ps1.find? (fun p => q1.NextRectY.Overlaps p)
      = ps2.find? (fun p => q2.NextRectY.Overlaps p)) :
    (collideAndMove q1 ps1).Y = (collideAndMove q2 ps2).Y ∧
    (collideAndMove q1 ps1).Vy = (collideAndMove q2 ps2).Vy ∧
    (collideAndMove q1 ps1).OnGround = (collideAndMove q2 ps2).OnGround := by
  rw [collideAndMove_eq, collideAndMove_eq]
  simp only [hf, hY, hV, and_self]

/-- Frames that agree on the vertical fields after steps 1 to 4 agree on them
at the end. -/
theorem Update_vertical_congr (g1 g2 : Game) (k1 k2 : Keys)
    (h : (moveAndCollide g1 k1).Y = (moveAndCollide g2 k2).Y ∧
      (moveAndCollide g1 k1).Vy = (moveAndCollide g2 k2).Vy ∧
      (moveAndCollide g1 k1).OnGround = (moveAndCollide g2 k2).OnGround) :
    (Update g1 k1).player.Y = (Update g2 k2).player.Y ∧
    (Update g1 k1).player.Vy = (Update g2 k2).player.Vy ∧
    (Update g1 k1).player.OnGround = (Update g2 k2).player.OnGround := by
  obtain ⟨a1, a2, a3⟩ := Update_vertical g1 k1
  obtain ⟨b1, b2, b3⟩ := Update_vertical g2 k2
  rw [a1, a2, a3, b1, b2, b3, h.1, h.2.1, h.2.2]
  exact ⟨rfl, rfl, rfl⟩

/-- C12. `OnGround` is recomputed every frame and does not persist: whatever
the ground flag before the frame, `Update` ends with `OnGround = true` only if
some platform of the list overlapped `NextRectY` while the `Vy` after gravity
was positive; if no platform overlaps `NextRectY`, or that `Vy` is at most 0,
the frame ends with `OnGround = false`. -/
theorem onGround_recomputed (g : Game) (k : Keys) :
    ((Update g k).player.OnGround = true →
      (∃ P ∈ g.platforms, (afterGravity g k).NextRectY.Overlaps P = true) ∧
      0 < (afterGravity g k).Vy) ∧
    ((∀ p ∈ g.platforms, (afterGravity g k).NextRectY.Overlaps p = false) →
      (Update g k).player.OnGround = false) ∧
    ((afterGravity g k).Vy ≤ 0 → (Update g k).player.OnGround = false) := by
  have hU := (Update_vertical g k).2.2
  have hm : (moveAndCollide g k).OnGround =
      (match g.platforms.find? (fun p => (afterGravity g k).NextRectY.Overlaps p) with
        | some _ => decide ((afterGravity g k).Vy > 0)
        | none => false) := by
    rw [moveAndCollide, collideAndMove_eq]
  refine ⟨?_, ?_, ?_⟩
  · intro h
    rw [hU] at h
    by_cases hr : 480 < (moveAndCollide g k).Y
    · simp [hr] at h
    · simp only [hr, if_false] at h
      rw [hm] at h
      cases hf : g.platforms.find? (fun p => (afterGravity g k).NextRectY.Overlaps p) with
      | none => simp [hf] at h
      | some P =>
        simp only [hf, decide_eq_true_eq] at h
        exact ⟨⟨P, List.mem_of_find?_eq_some hf, List.find?_some hf⟩, h⟩
  · intro hall
    have hf : g.platforms.find? (fun p => (afterGravity g k).NextRectY.Overlaps p) = none := by
      rw [List.find?_eq_none]
      intro p hp
      simp [hall p hp]
    rw [hU, hm, hf]
    simp
  · intro hv
    rw [hU, hm]
    cases g.platforms.find? (fun p => (afterGravity g k).NextRectY.Overlaps p) <;>
      simp [not_lt.mpr hv]

/-- C12, witness: a player that is on the ground at the floor of the level, no
key held, ends the frame with `OnGround = false`, since no platform overlaps
`NextRectY`. -/
theorem onGround_recomputed_witness :
    (Update ⟨⟨100, 408, 0, 0, true⟩, world.GetInitialPlatforms⟩
      ⟨false, false, false⟩).player.OnGround = false :=
  (onGround_recomputed ⟨⟨100, 408, 0, 0, true⟩, world.GetInitialPlatforms⟩
    ⟨false, false, false⟩).2.1 (by
      norm_num [afterGravity, Player.HandleInput, Player.ApplyGravity, Player.NextRectY,
        image.Rect, image.Rectangle.Overlaps, image.Rectangle.Empty, world.GetInitialPlatforms,
        world.ScreenHeight, world.ScreenWidth, Width, Height, gravity, maxFallSpeed, Go.int,
        Int.tdiv_eq_ediv])

/-- The first overlapping platform of a list is the first one after a part
without overlap. -/
theorem find_first_overlap (r : image.Rectangle) (pre rest : List world.Platform)
    (P1 : world.Platform) (hpre : ∀ p ∈ pre, r.Overlaps p = false) (hP : r.Overlaps P1 = true) :
    (pre ++ [P1] ++ rest).find? (fun p => r.Overlaps p) = some P1 := by
  induction pre with
  | nil => simp [List.find?, hP]
  | cons a pre ih =>
    have ha : r.Overlaps a = false := hpre a (List.mem_cons_self a pre)
    have ih2 := ih (fun p hp => hpre p (List.mem_cons_of_mem a hp))
    simpa [List.find?, ha] using ih2

/-- C13. First match wins in the vertical check: for a platform list
`pre ++ [P1] ++ rest` where no platform of `pre` overlaps `NextRectY` and `P1`
does, the `Y`, `Vy` and `OnGround` at the end of `Update` are the same as for
the list `pre ++ [P1]`; a falling player is snapped to `P1.Min.Y - 32` by the
vertical step whatever `rest` holds, in particular for the list `[P1, P2]`
with `P2` overlapping too. -/
theorem first_match_wins (pl : Player) (k : Keys) (pre rest : List world.Platform)
    (P1 P2 : world.Platform)
    (hpre : ∀ p ∈ pre, (afterGravity ⟨pl, []⟩ k).NextRectY.Overlaps p = false)
    (hP : (afterGravity ⟨pl, []⟩ k).NextRectY.Overlaps P1 = true) :
    ((Update ⟨pl, pre ++ [P1] ++ rest⟩ k).player.Y = (Update ⟨pl, pre ++ [P1]⟩ k).player.Y ∧
      (Update ⟨pl, pre ++ [P1] ++ rest⟩ k).player.Vy = (Update ⟨pl, pre ++ [P1]⟩ k).player.Vy ∧
      (Update ⟨pl, pre ++ [P1] ++ rest⟩ k).player.OnGround
        = (Update ⟨pl, pre ++ [P1]⟩ k).player.OnGround) ∧
    (0 < (afterGravity ⟨pl, []⟩ k).Vy →
      (moveAndCollide ⟨pl, pre ++ [P1] ++ rest⟩ k).Y = (P1.Min.Y : ℚ) - 32 ∧
      (moveAndCollide ⟨pl, [P1, P2]⟩ k).Y = (P1.Min.Y : ℚ) - 32 ∧
      ((P1.Min.Y : ℚ) - 32 ≤ 480 → (Update ⟨pl, [P1, P2]⟩ k).player.Y = (P1.Min.Y : ℚ) - 32)) := by
  have hq : ∀ ps : List world.Platform, afterGravity ⟨pl, ps⟩ k = afterGravity ⟨pl, []⟩ k :=
    fun _ => rfl
  have h1 := find_first_overlap _ pre rest P1 hpre hP
  have h2 := find_first_overlap _ pre [] P1 hpre hP
  have h3 := find_first_overlap (afterGravity ⟨pl, []⟩ k).NextRectY [] [P2] P1
    (fun p hp => absurd hp (List.not_mem_nil p)) hP
  simp only [List.append_nil, List.nil_append, List.singleton_append] at h2 h3
  constructor
  · apply Update_vertical_congr
    simp only [moveAndCollide, hq]
    apply collideAndMove_vertical_congr _ _ _ _ rfl rfl
    rw [h1, h2]
  · intro hv
    have e1 : (moveAndCollide ⟨pl, pre ++ [P1] ++ rest⟩ k).Y = (P1.Min.Y : ℚ) - 32 := by
      simp only [moveAndCollide, hq, collideAndMove_eq, h1]
      simp [hv]
    have e2 : (moveAndCollide ⟨pl, [P1, P2]⟩ k).Y = (P1.Min.Y : ℚ) - 32 := by
      simp only [moveAndCollide, hq, collideAndMove_eq, h3]
      simp [hv]
    refine ⟨e1, e2, ?_⟩
    intro hle
    rw [(Update_vertical _ k).1, e2]
    simp [not_lt.mpr hle]

/-- C13, witness: two overlapping platforms, the second with the higher top; a
player falling onto them is snapped to the top of the first. -/
theorem first_match_wins_witness :
    (Update ⟨⟨100, 439, 0, 8, false⟩, [image.Rect 0 440 640 480, image.Rect 0 430 640 480]⟩
      ⟨false, false, false⟩).player.Y = 408 := by
  have h := (first_match_wins ⟨100, 439, 0, 8, false⟩ ⟨false, false, false⟩ [] []
    (image.Rect 0 440 640 480) (image.Rect 0 430 640 480)
    (fun p hp => absurd hp (List.not_mem_nil p))
    (by
      norm_num [afterGravity, Player.HandleInput, Player.ApplyGravity, Player.NextRectY,
        image.Rect, image.Rectangle.Overlaps, image.Rectangle.Empty, Width, Height, gravity,
        maxFallSpeed, Go.int, Int.tdiv_eq_ediv])).2
    (by norm_num [afterGravity, Player.HandleInput, Player.ApplyGravity, gravity, maxFallSpeed])
  have h2 := h.2.2 (by norm_num [image.Rect])
  norm_num [image.Rect] at h2
  exact h2

end game

/-! ## Edge clamp, independence of the axes, the first frame and the level -/

namespace game

open player

/-- C14. Edge clamp zeroes `Vx`: if the `X` reached after the horizontal step of
`Update` is below 0 or above 624, the screen-edge step moves it to 0 or to 624
and the frame ends with `Vx = 0`; if that `X` lies in [0, 624], the screen-edge
step changes neither `X` nor `Vx` (it changes nothing). -/
theorem edge_clamp_zeroes_vx (g : Game) (k : Keys) :
    ((moveAndCollide g k).X < 0 →
      (screenBoundaries (moveAndCollide g k)).X = 0 ∧
      (screenBoundaries (moveAndCollide g k)).Vx = 0 ∧ (Update g k).player.Vx = 0) ∧
    (624 < (moveAndCollide g k).X →
      (screenBoundaries (moveAndCollide g k)).X = 624 ∧
      (screenBoundaries (moveAndCollide g k)).Vx = 0 ∧ (Update g k).player.Vx = 0) ∧
    ((0 ≤ (moveAndCollide g k).X ∧ (moveAndCollide g k).X ≤ 624) →
      screenBoundaries (moveAndCollide g k) = moveAndCollide g k) := by
  have hreset : ∀ s : Player, s.Vx = 0 → (resetIfFallen s).Vx = 0 := by
    intro s hs
    unfold resetIfFallen
    split
    · rfl
    · exact hs
  refine ⟨?_, ?_, ?_⟩
  · intro h
    have h1 : (screenBoundaries (moveAndCollide g k)).X = 0 ∧
        (screenBoundaries (moveAndCollide g k)).Vx = 0 := by
      simp [screenBoundaries, h]
    exact ⟨h1.1, h1.2, hreset _ h1.2⟩
  · intro h
    have h0 : ¬ (moveAndCollide g k).X < 0 := by linarith
    have h2 : (640 : ℚ) < (moveAndCollide g k).X + 16 := by linarith
    have h1 : (screenBoundaries (moveAndCollide g k)).X = 624 ∧
        (screenBoundaries (moveAndCollide g k)).Vx = 0 := by
      simp [screenBoundaries, h0, h2, ScreenWidth, world.ScreenWidth, Width]
      norm_num
    exact ⟨h1.1, h1.2, hreset _ h1.2⟩
  · rintro ⟨h0, h1⟩
    have h0' : ¬ (moveAndCollide g k).X < 0 := not_lt.mpr h0
    have h2 : ¬ ((640 : ℚ) < (moveAndCollide g k).X + 16) := by linarith
    simp [screenBoundaries, h0', h2, ScreenWidth, world.ScreenWidth, Width]

/-- C14, witness: a player at `X = 623` moving right in a game without
platforms reaches `X = 626`, is moved to 624 and ends the frame with `Vx = 0`. -/
theorem edge_clamp_zeroes_vx_witness :
    (screenBoundaries (moveAndCollide ⟨⟨623, 100, 0, 0, false⟩, []⟩ ⟨false, true, false⟩)).X
      = 624 ∧
    (Update ⟨⟨623, 100, 0, 0, false⟩, []⟩ ⟨false, true, false⟩).player.Vx = 0 :=
  have h := (edge_clamp_zeroes_vx ⟨⟨623, 100, 0, 0, false⟩, []⟩ ⟨false, true, false⟩).2.1 (by
    norm_num [moveAndCollide, afterGravity, collideAndMove, checkHorizontal, checkVertical,
      Player.HandleInput, Player.ApplyGravity, gravity, maxFallSpeed, moveSpeed])
  ⟨h.1, h.2.2⟩

/-- The player after input and gravity, apart from `Vx`, does not depend on the
direction keys. -/
theorem afterGravity_direction_keys (g : Game) (l1 r1 l2 r2 j : Bool) :
    (afterGravity g ⟨l1, r1, j⟩).X = (afterGravity g ⟨l2, r2, j⟩).X ∧
    (afterGravity g ⟨l1, r1, j⟩).Y = (afterGravity g ⟨l2, r2, j⟩).Y ∧
    (afterGravity g ⟨l1, r1, j⟩).Vy = (afterGravity g ⟨l2, r2, j⟩).Vy := by
  refine ⟨?_, ?_, ?_⟩ <;>
  simp [afterGravity, ApplyGravity_Vy, (ApplyGravity_rest _).1, (ApplyGravity_rest _).2.1,
    (HandleInput_pos _ _).1, (HandleInput_pos _ _).2, (HandleInput_jump _ _).1]

/-- C15. The vertical check uses the start-of-frame `X`, so the vertical outcome
does not depend on the horizontal input: two frames of `Update` from the same
state, with the same jump input and the same platform list, that differ only
in which of left and right are held, see the same `NextRectY` and end with the
same `Y`, the same `Vy` and the same `OnGround`. -/
theorem vertical_independent_of_direction (g : Game) (l1 r1 l2 r2 j : Bool) :
    (afterGravity g ⟨l1, r1, j⟩).NextRectY = (afterGravity g ⟨l2, r2, j⟩).NextRectY ∧
    (Update g ⟨l1, r1, j⟩).player.Y = (Update g ⟨l2, r2, j⟩).player.Y ∧
    (Update g ⟨l1, r1, j⟩).player.Vy = (Update g ⟨l2, r2, j⟩).player.Vy ∧
    (Update g ⟨l1, r1, j⟩).player.OnGround = (Update g ⟨l2, r2, j⟩).player.OnGround := by
  obtain ⟨hX, hY, hV⟩ := afterGravity_direction_keys g l1 r1 l2 r2 j
  have hR : (afterGravity g ⟨l1, r1, j⟩).NextRectY = (afterGravity g ⟨l2, r2, j⟩).NextRectY := by
    simp only [Player.NextRectY, hX, hY, hV]
  refine ⟨hR, ?_⟩
  apply Update_vertical_congr
  simp only [moveAndCollide]
  apply collideAndMove_vertical_congr _ _ _ _ hY hV
  rw [hR]

/-- C16. First frame from the start state: with the player of `NewPlayer`, the
platforms of `GetInitialPlatforms` and no key held, no platform of the level
overlaps `NextRectX` or `NextRectY`, and one frame of `Update` ends in exactly
`X = 100`, `Y = 100.4`, `Vx = 0`, `Vy = 0.4`, `OnGround = false`. -/
theorem first_frame_from_start :
    NewGame = ⟨⟨100, 100, 0, 0, false⟩, world.GetInitialPlatforms⟩ ∧
    (Update NewGame ⟨false, false, false⟩).player = ⟨100, 502 / 5, 0, 2 / 5, false⟩ ∧
    world.GetInitialPlatforms.any
      (fun p => (afterGravity NewGame ⟨false, false, false⟩).NextRectX.Overlaps p) = false ∧
    world.GetInitialPlatforms.any
      (fun p => (afterGravity NewGame ⟨false, false, false⟩).NextRectY.Overlaps p) = false := by
  refine ⟨rfl, ?_, ?_, ?_⟩ <;>
  norm_num [Update, NewGame, NewPlayer, moveAndCollide, afterGravity, collideAndMove,
    checkHorizontal, checkVertical,
    Player.HandleInput, Player.ApplyGravity, Player.NextRectX, Player.NextRectY, image.Rect,
    image.Rectangle.Overlaps, image.Rectangle.Empty, world.GetInitialPlatforms, world.ScreenHeight,
    world.ScreenWidth, resetIfFallen, screenBoundaries, ScreenHeight, ScreenWidth, Width, Height,
    gravity, maxFallSpeed, moveSpeed, jumpPower, Go.int, Int.tdiv_eq_ediv, Player.HandleCollisionX,
    Player.HandleCollisionY, Player.ResetPosition]

/-- C17. Platform catalog: `GetInitialPlatforms` returns exactly four
rectangles in this order: the floor (0,440)-(640,480), then the ledges
(200,380)-(300,400), (400,300)-(500,320) and (50,220)-(150,240). Every one lies
inside the 640x480 screen and is at least 20 px thick, the floor spans the full
screen width, and the list is the one that the flat `NewGame` builds. -/
theorem platform_catalog :
    world.GetInitialPlatforms =
      [⟨⟨0, 440⟩, ⟨640, 480⟩⟩, ⟨⟨200, 380⟩, ⟨300, 400⟩⟩, ⟨⟨400, 300⟩, ⟨500, 320⟩⟩,
       ⟨⟨50, 220⟩, ⟨150, 240⟩⟩] ∧
    world.GetInitialPlatforms.length = 4 ∧
    (∀ p ∈ world.GetInitialPlatforms,
      (0 ≤ p.Min.X ∧ p.Max.X ≤ world.ScreenWidth ∧ 0 ≤ p.Min.Y ∧ p.Max.Y ≤ world.ScreenHeight) ∧
      20 ≤ p.Dy ∧ p.Empty = false) ∧
    (∀ floor ∈ world.GetInitialPlatforms.head?,
      floor.Min.X = 0 ∧ floor.Max.X = world.ScreenWidth ∧ floor.Dx = 640) ∧
    flat.NewGame.platforms = world.GetInitialPlatforms := by
  have hl : world.GetInitialPlatforms =
      [⟨⟨0, 440⟩, ⟨640, 480⟩⟩, ⟨⟨200, 380⟩, ⟨300, 400⟩⟩, ⟨⟨400, 300⟩, ⟨500, 320⟩⟩,
       ⟨⟨50, 220⟩, ⟨150, 240⟩⟩] := by
    simp [world.GetInitialPlatforms, image.Rect, world.ScreenHeight, world.ScreenWidth]
  refine ⟨hl, by simp [world.GetInitialPlatforms], ?_, ?_, ?_⟩
  · rw [hl]
    simp [world.ScreenWidth, world.ScreenHeight, image.Rectangle.Dy, image.Rectangle.Empty]
  · rw [hl]
    simp [world.ScreenWidth, image.Rectangle.Dx]
  · rw [hl]
    simp [flat.NewGame, image.Rect, flat.screenHeight, flat.screenWidth]

end game

/-! ## The floor of the level -/

namespace game

open player

/-- The conversion `int(f)` is the floor of a non-negative value and the ceiling
of a negative one. -/
theorem int_eq_floor_or_ceil (f : ℚ) : Go.int f = if 0 ≤ f then ⌊f⌋ else ⌈f⌉ := by
  unfold Go.int
  by_cases h : 0 ≤ f
  · rw [if_pos h, Int.tdiv_eq_ediv (Rat.num_nonneg.mpr h) (Int.natCast_nonneg _)]
    exact (Rat.floor_def' f).symm
  · rw [if_neg h]
    have hneg : 0 ≤ -f := by linarith [not_le.mp h]
    have h1 : (-f.num).tdiv (f.den : ℤ) = ⌊-f⌋ := by
      have h2 := Rat.floor_def' (-f)
      rw [Rat.neg_num, Rat.neg_den] at h2
      rw [Int.tdiv_eq_ediv (by simpa using Rat.num_nonneg.mpr hneg) (Int.natCast_nonneg _)]
      exact h2.symm
    rw [Int.neg_tdiv, Int.floor_neg] at h1
    exact neg_injective h1

/-- An integer below a value is at most its conversion. -/
theorem le_int_of_le (n : ℤ) (f : ℚ) (h : (n : ℚ) ≤ f) : n ≤ Go.int f := by
  rw [int_eq_floor_or_ceil]
  split
  · exact Int.le_floor.mpr h
  · exact_mod_cast h.trans (Int.le_ceil f)

/-- The conversion of a value below a positive integer is below it. -/
theorem int_lt_of_lt (n : ℤ) (f : ℚ) (hn : 0 < n) (h : f < (n : ℚ)) : Go.int f < n := by
  rw [int_eq_floor_or_ceil]
  split
  · exact Int.floor_lt.mpr h
  · rename_i h0
    have : ⌈f⌉ ≤ 0 := Int.ceil_le.mpr (by push_cast; linarith [not_le.mp h0])
    omega

/-- A box that reaches below row 440 on the screen overlaps the floor: for
`X` on the screen, `Y` in [409, 417) and a `Vy` of at most 8. -/
theorem floor_overlaps (q : Player) (hX0 : 0 ≤ q.X) (hX1 : q.X ≤ 624) (hY0 : 409 ≤ q.Y)
    (hY1 : q.Y < 417) (hv1 : q.Vy ≤ 8) :
    q.NextRectY.Overlaps ⟨⟨0, 440⟩, ⟨640, 480⟩⟩ = true := by
  have a0 : 0 ≤ Go.int q.X := le_int_of_le 0 _ (by simpa using hX0)
  have a1 : Go.int q.X < 625 := int_lt_of_lt 625 _ (by norm_num) (by push_cast; linarith)
  have b1 : Go.int (q.Y + q.Vy) < 425 := int_lt_of_lt 425 _ (by norm_num) (by push_cast; linarith)
  have c0 : 409 ≤ Go.int q.Y := le_int_of_le 409 _ (by simpa using hY0)
  simp only [Player.NextRectY, image.Rect, image.Rectangle.Overlaps, image.Rectangle.Empty,
    Width, Height]
  generalize Go.int q.X = a at *
  generalize Go.int (q.Y + q.Vy) = b at *
  generalize Go.int q.Y = c at *
  have e1 : ¬ a > a + 16 := by omega
  have e2 : ¬ b > c + 32 := by omega
  simp only [e1, e2, if_false]
  simp only [Bool.and_eq_true, Bool.not_eq_true', Bool.or_eq_false_iff,
    decide_eq_true_eq, decide_eq_false_iff_not]
  omega

/-- A rising box from `Y <= 408` does not reach the floor. -/
theorem floor_not_overlapped (q : Player) (hY : q.Y ≤ 408) (hv : q.Vy < 0) :
    q.NextRectY.Overlaps ⟨⟨0, 440⟩, ⟨640, 480⟩⟩ = false := by
  have b1 : Go.int (q.Y + q.Vy) < 409 := int_lt_of_lt 409 _ (by norm_num) (by push_cast; linarith)
  have c1 : Go.int q.Y < 409 := int_lt_of_lt 409 _ (by norm_num) (by push_cast; linarith)
  simp only [Player.NextRectY, image.Rect, image.Rectangle.Overlaps, image.Rectangle.Empty,
    Width, Height]
  generalize Go.int q.X = a at *
  generalize Go.int (q.Y + q.Vy) = b at *
  generalize Go.int q.Y = c at *
  have e1 : ¬ a > a + 16 := by omega
  rw [Bool.eq_false_iff]
  by_cases e2 : b > c + 32
  · simp only [e1, e2, if_false, if_true, ne_eq, Bool.and_eq_true, Bool.not_eq_true',
      Bool.or_eq_false_iff, decide_eq_true_eq, decide_eq_false_iff_not]
    omega
  · simp only [e1, e2, if_false, ne_eq, Bool.and_eq_true, Bool.not_eq_true',
      Bool.or_eq_false_iff, decide_eq_true_eq, decide_eq_false_iff_not]
    omega

/-- The platforms of the level as explicit rectangles. -/
theorem GetInitialPlatforms_eq :
    world.GetInitialPlatforms =
      [⟨⟨0, 440⟩, ⟨640, 480⟩⟩, ⟨⟨200, 380⟩, ⟨300, 400⟩⟩, ⟨⟨400, 300⟩, ⟨500, 320⟩⟩,
       ⟨⟨50, 220⟩, ⟨150, 240⟩⟩] := by
  simp [world.GetInitialPlatforms, image.Rect, world.ScreenHeight, world.ScreenWidth]

/-- The vertical part of the invariant after steps 3 and 4 in the level. -/
theorem collideAndMove_aboveFloor (q : Player) (hX0 : 0 ≤ q.X) (hX1 : q.X ≤ 624)
    (hY : q.Y < 417) (hv8 : q.Vy ≤ 8) (hneg : q.Vy < 0 → q.Y ≤ 408) :
    (collideAndMove q world.GetInitialPlatforms).Y < 417 ∧
    ((collideAndMove q world.GetInitialPlatforms).OnGround = true →
      (collideAndMove q world.GetInitialPlatforms).Y ≤ 408) ∧
    ((collideAndMove q world.GetInitialPlatforms).Vy < 0 →
      (collideAndMove q world.GetInitialPlatforms).Y ≤ 408) := by
  rw [collideAndMove_eq]
  cases hf : world.GetInitialPlatforms.find? (fun p => q.NextRectY.Overlaps p) with
  | none =>
    simp only
    have hlt : q.Y < 409 := by
      by_contra hge
      have hge' : 409 ≤ q.Y := not_lt.mp hge
      have hov := floor_overlaps q hX0 hX1 hge' hY hv8
      have hno := List.find?_eq_none.mp hf ⟨⟨0, 440⟩, ⟨640, 480⟩⟩
        (by rw [GetInitialPlatforms_eq]; simp)
      exact hno hov
    refine ⟨by linarith, by simp, ?_⟩
    intro hv
    have := hneg hv
    linarith
  | some P =>
    have hmem := List.mem_of_find?_eq_some hf
    have hov : q.NextRectY.Overlaps P = true := List.find?_some hf
    rw [GetInitialPlatforms_eq] at hmem
    simp only
    rcases lt_trichotomy q.Vy 0 with hv | hv | hv
    · have hY8 := hneg hv
      have hP : P ≠ ⟨⟨0, 440⟩, ⟨640, 480⟩⟩ := by
        intro he
        rw [he, floor_not_overlapped q hY8 hv] at hov
        exact Bool.false_ne_true hov
      have hmax : (P.Max.Y : ℚ) ≤ 408 := by
        simp only [List.mem_cons, List.mem_singleton, List.not_mem_nil, or_false] at hmem
        rcases hmem with h | h | h | h
        · exact absurd h hP
        all_goals (rw [h]; norm_num)
      simp only [not_lt.mpr hv.le, hv, if_true, if_false]
      refine ⟨by linarith, fun _ => hmax, fun _ => hmax⟩
    · simp only [hv, lt_irrefl, if_false, gt_iff_lt, decide_False]
      refine ⟨hY, by simp, by simp⟩
    · have hmin : (P.Min.Y : ℚ) - 32 ≤ 408 := by
        simp only [List.mem_cons, List.mem_singleton, List.not_mem_nil, or_false] at hmem
        rcases hmem with h | h | h | h <;> (rw [h]; norm_num)
      simp only [gt_iff_lt, hv, if_true]
      refine ⟨by linarith, fun _ => hmin, fun _ => hmin⟩

/-- The invariant is kept by a frame of `Update` in the level, and the frame
does not reach the reset. -/
theorem aboveFloor_Update (g : Game) (k : Keys)
    (hp : g.platforms = world.GetInitialPlatforms) (h : aboveFloor g.player) :
    aboveFloor (Update g k).player ∧ (moveAndCollide g k).Y < 417 := by
  obtain ⟨⟨hX0, hX1⟩, hY, hG, hV⟩ := h
  have qX : (afterGravity g k).X = g.player.X := by
    simp [afterGravity, (ApplyGravity_rest _).1, (HandleInput_pos _ _).1]
  have qY : (afterGravity g k).Y = g.player.Y := by
    simp [afterGravity, (ApplyGravity_rest _).2.1, (HandleInput_pos _ _).2]
  have qV : (afterGravity g k).Vy
      = min ((if (k.KeySpace && g.player.OnGround) = true then -7 else g.player.Vy) + 2 / 5) 8 := by
    rw [afterGravity, ApplyGravity_Vy, (HandleInput_jump _ _).1]
  have qV8 : (afterGravity g k).Vy ≤ 8 := by rw [qV]; exact min_le_right _ _
  have qneg : (afterGravity g k).Vy < 0 → (afterGravity g k).Y ≤ 408 := by
    intro hv
    rw [qY]
    rw [qV] at hv
    by_cases hj : (k.KeySpace && g.player.OnGround) = true
    · simp only [Bool.and_eq_true] at hj
      exact hG hj.2
    · simp only [hj, if_false] at hv
      have h8 : (0 : ℚ) < 8 := by norm_num
      have : g.player.Vy + 2 / 5 < 0 := by
        rcases min_lt_iff.mp hv with h1 | h1
        · exact h1
        · linarith
      exact hV (by linarith)
  have hm := collideAndMove_aboveFloor (afterGravity g k) (by rw [qX]; exact hX0)
    (by rw [qX]; exact hX1) (by rw [qY]; exact hY) qV8 qneg
  have hmc : moveAndCollide g k = collideAndMove (afterGravity g k) world.GetInitialPlatforms := by
    rw [moveAndCollide, hp]
  rw [← hmc] at hm
  obtain ⟨m1, m2, m3⟩ := hm
  obtain ⟨u1, u2, u3⟩ := Update_vertical g k
  have hnr : ¬ 480 < (moveAndCollide g k).Y := by linarith
  simp only [hnr, if_false] at u1 u2 u3
  refine ⟨⟨Update_X_bounds g k, ?_, ?_, ?_⟩, m1⟩
  · rw [u1]; exact m1
  · rw [u1, u3]; exact m2
  · rw [u1, u2]; exact m3

/-- The invariant holds after every run of frames from a state of the level
that satisfies it. -/
theorem aboveFloor_frames (ks : List Keys) : ∀ g : Game,
    g.platforms = world.GetInitialPlatforms → aboveFloor g.player →
    (frames g ks).platforms = world.GetInitialPlatforms ∧ aboveFloor (frames g ks).player := by
  induction ks with
  | nil => intro g hp h; exact ⟨hp, h⟩
  | cons k ks ih =>
    intro g hp h
    exact ih (Update g k) hp (aboveFloor_Update g k hp h).1

/-- C20. The player never falls through the floor in the level: from the state
of `NewGame` (the player of `NewPlayer`, the platforms of
`GetInitialPlatforms`), after every finite sequence `ks` of key states the
player's `Y` is below 417, hence below 480 with the box bottom above the lower
edge of the floor; and for every key state `k` of a next frame the `Y` after
the vertical step is not above 480, so the reset branch is not taken and the
reset step leaves the state as it is. -/
theorem never_falls_through_floor (ks : List Keys) (k : Keys) :
    (frames NewGame ks).player.Y < 417 ∧
    (frames NewGame ks).player.Y < 480 ∧
    (frames NewGame ks).player.Y + 32 < 480 ∧
    ¬ ((moveAndCollide (frames NewGame ks) k).Y > 480) ∧
    resetIfFallen (screenBoundaries (moveAndCollide (frames NewGame ks) k))
      = screenBoundaries (moveAndCollide (frames NewGame ks) k) := by
  have h0 : aboveFloor NewGame.player := by
    simp only [NewGame, NewPlayer, aboveFloor]
    norm_num
  obtain ⟨hp, hI⟩ := aboveFloor_frames ks NewGame rfl h0
  have hstep := (aboveFloor_Update (frames NewGame ks) k hp hI).2
  have hY := hI.2.1
  refine ⟨hY, by linarith, by linarith, by linarith, ?_⟩
  apply resetIfFallen_of_le
  rw [(screenBoundaries_vertical _).1]
  linarith

end game

/-! ## Speed caps -/

namespace game

open player

/-- The horizontal fields after steps 3 and 4. -/
theorem collideAndMove_horizontal (q : Player) (ps : List world.Platform) :
    ((collideAndMove q ps).X = q.X ∧ (collideAndMove q ps).Vx = 0) ∨
    ((collideAndMove q ps).X = q.X + q.Vx ∧ (collideAndMove q ps).Vx = q.Vx) := by
  rw [collideAndMove_eq]
  cases ps.any (fun p => q.NextRectX.Overlaps p) <;> simp

/-- The horizontal velocity after input and gravity is -3, 0 or 3. -/
theorem afterGravity_Vx (g : Game) (k : Keys) :
    (afterGravity g k).Vx = -3 ∨ (afterGravity g k).Vx = 0 ∨ (afterGravity g k).Vx = 3 := by
  rw [afterGravity, (ApplyGravity_rest _).2.2.1, HandleInput_Vx]
  cases k.KeyLeft <;> cases k.KeyRight <;> simp

/-- The screen-edge step keeps `Vx` or sets it to 0, and moves `X` to the
nearest point of [0, 624]. -/
theorem screenBoundaries_horizontal (pl : Player) :
    ((screenBoundaries pl).Vx = pl.Vx ∨ (screenBoundaries pl).Vx = 0) ∧
    (screenBoundaries pl).X = max 0 (min pl.X 624) := by
  unfold screenBoundaries
  by_cases h0 : pl.X < 0
  · rw [if_pos h0]
    refine ⟨Or.inr rfl, ?_⟩
    show (0 : ℚ) = max 0 (min pl.X 624)
    rw [min_eq_left (by linarith), max_eq_left h0.le]
  · rw [if_neg h0]
    by_cases h1 : pl.X + (Width : ℚ) > (ScreenWidth : ℚ)
    · have h1' : (624 : ℚ) < pl.X := by
        simp only [ScreenWidth, world.ScreenWidth, Width] at h1
        push_cast at h1
        linarith
      rw [if_pos h1]
      refine ⟨Or.inr rfl, ?_⟩
      show ((ScreenWidth : ℚ) - (Width : ℚ)) = max 0 (min pl.X 624)
      rw [min_eq_right h1'.le, max_eq_right (by norm_num)]
      simp only [ScreenWidth, world.ScreenWidth, Width]
      norm_num
    · have h1' : pl.X ≤ 624 := by
        simp only [ScreenWidth, world.ScreenWidth, Width] at h1
        push_cast at h1
        linarith
      rw [if_neg h1]
      refine ⟨Or.inl rfl, ?_⟩
      rw [min_eq_left h1', max_eq_right (not_lt.mp h0)]

/-- C19, as the code has it. Speed caps hold after every frame: for every
state, key input and platform list, `Update` ends with `Vy <= 8` and with `Vx`
equal to -3, 0 or 3. The position update of the frame moves `X` by at most 3 px
and, when no platform overlaps `NextRectY`, moves `Y` by the `Vy` after
gravity, at most 8 px down; from an `X` on the screen and without the reset,
the whole frame moves `X` by at most 3 px. Nothing is said here about the
snap of a vertical collision and about the reset, which set the position
directly. -/
theorem speed_caps (g : Game) (k : Keys) :
    (Update g k).player.Vy ≤ 8 ∧
    ((Update g k).player.Vx = -3 ∨ (Update g k).player.Vx = 0 ∨ (Update g k).player.Vx = 3) ∧
    |(moveAndCollide g k).X - g.player.X| ≤ 3 ∧
    ((∀ p ∈ g.platforms, (afterGravity g k).NextRectY.Overlaps p = false) →
      (moveAndCollide g k).Y - g.player.Y = (afterGravity g k).Vy ∧
      (moveAndCollide g k).Y - g.player.Y ≤ 8) ∧
    ((0 ≤ g.player.X ∧ g.player.X ≤ 624) → (moveAndCollide g k).Y ≤ 480 →
      |(Update g k).player.X - g.player.X| ≤ 3) := by
  have qX : (afterGravity g k).X = g.player.X := by
    simp [afterGravity, (ApplyGravity_rest _).1, (HandleInput_pos _ _).1]
  have qY : (afterGravity g k).Y = g.player.Y := by
    simp [afterGravity, (ApplyGravity_rest _).2.1, (HandleInput_pos _ _).2]
  have qV8 : (afterGravity g k).Vy ≤ 8 := by
    rw [afterGravity, ApplyGravity_Vy]; exact min_le_right _ _
  have qVx := afterGravity_Vx g k
  have qVx3 : |(afterGravity g k).Vx| ≤ 3 := by
    rcases qVx with h | h | h <;> rw [h] <;> norm_num
  have hH := collideAndMove_horizontal (afterGravity g k) g.platforms
  have hmVx : (moveAndCollide g k).Vx = -3 ∨ (moveAndCollide g k).Vx = 0 ∨
      (moveAndCollide g k).Vx = 3 := by
    rcases hH with ⟨-, h⟩ | ⟨-, h⟩
    · exact Or.inr (Or.inl h)
    · rw [moveAndCollide, h]; exact qVx
  have hmX : |(moveAndCollide g k).X - g.player.X| ≤ 3 := by
    rcases hH with ⟨h, -⟩ | ⟨h, -⟩
    · rw [moveAndCollide, h, qX]; norm_num
    · rw [moveAndCollide, h, qX]; simpa using qVx3
  obtain ⟨hsV, hsX⟩ := screenBoundaries_horizontal (moveAndCollide g k)
  refine ⟨?_, ?_, hmX, ?_, ?_⟩
  · rw [(Update_vertical g k).2.1]
    split
    · norm_num
    · rcases collideAndMove_Vy (afterGravity g k) g.platforms with h | h
      · rw [moveAndCollide, h]; norm_num
      · rw [moveAndCollide, h]; exact qV8
  · simp only [Update, resetIfFallen]
    split
    · right; left; rfl
    · rcases hsV with h | h
      · rw [h]; exact hmVx
      · right; left; exact h
  · intro hall
    have hf : g.platforms.find? (fun p => (afterGravity g k).NextRectY.Overlaps p) = none := by
      rw [List.find?_eq_none]
      intro p hp
      simp [hall p hp]
    have hY : (moveAndCollide g k).Y = (afterGravity g k).Y + (afterGravity g k).Vy := by
      rw [moveAndCollide, collideAndMove_eq, hf]
    rw [hY, qY]
    constructor
    · ring
    · linarith
  · rintro ⟨h0, h1⟩ hle
    have hr := resetIfFallen_of_le (screenBoundaries (moveAndCollide g k))
      (by rw [(screenBoundaries_vertical _).1]; exact hle)
    simp only [Update, hr, hsX]
    have hm := abs_le.mp hmX
    rw [abs_le]
    constructor
    · have : g.player.X - 3 ≤ max 0 (min (moveAndCollide g k).X 624) :=
        le_max_of_le_right (le_min (by linarith [hm.1]) (by linarith))
      linarith
    · have : max 0 (min (moveAndCollide g k).X 624) ≤ g.player.X + 3 :=
        max_le (by linarith) ((min_le_left _ _).trans (by linarith [hm.2]))
      linarith

/-- C19, witness: in the first frame of a new game with right held, `X` moves
from 100 to 103. -/
theorem speed_caps_witness :
    |(Update NewGame ⟨false, true, false⟩).player.X - NewGame.player.X| ≤ 3 :=
  (speed_caps NewGame ⟨false, true, false⟩).2.2.2.2
    (by norm_num [NewGame, NewPlayer])
    (by
      norm_num [NewGame, NewPlayer, moveAndCollide, afterGravity, collideAndMove,
        checkHorizontal, checkVertical,
        Player.HandleInput, Player.ApplyGravity, Player.NextRectX, Player.NextRectY, image.Rect,
        image.Rectangle.Overlaps, image.Rectangle.Empty, world.GetInitialPlatforms,
        world.ScreenHeight, world.ScreenWidth, Width, Height, gravity, maxFallSpeed, moveSpeed,
        jumpPower, Go.int, Int.tdiv_eq_ediv, Player.HandleCollisionX, Player.HandleCollisionY])

/-- C19, counterexample to the bound on the movement per frame. In the level,
from `X = 600`, `Y = 479.5`, `Vy = -7` with no key held, the first frame ends
at (600, 480) and the second frame, a reset, ends at (100, 100): 500 px
sideways. With the platforms (0,200)-(640,220) and (0,100)-(640,400), from
`Y = 170`, `Vy = 4`, the first frame lands at `Y = 168` and the second frame,
a jump, snaps to the lower edge of the second platform at `Y = 400`: 232 px
down. -/
theorem movement_per_frame_exceeds_caps :
    (Update ⟨⟨600, 959 / 2, 0, -7, false⟩, world.GetInitialPlatforms⟩
      ⟨false, false, false⟩).player = ⟨600, 480, 0, 0, false⟩ ∧
    (Update ⟨⟨600, 480, 0, 0, false⟩, world.GetInitialPlatforms⟩
      ⟨false, false, false⟩).player = ⟨100, 100, 0, 0, false⟩ ∧
    ¬ (|(100 : ℚ) - 600| ≤ 3) ∧
    (Update ⟨⟨100, 170, 0, 4, false⟩, [image.Rect 0 200 640 220, image.Rect 0 100 640 400]⟩
      ⟨false, false, false⟩).player = ⟨100, 168, 0, 0, true⟩ ∧
    (Update ⟨⟨100, 168, 0, 0, true⟩, [image.Rect 0 200 640 220, image.Rect 0 100 640 400]⟩
      ⟨false, false, true⟩).player = ⟨100, 400, 0, 0, false⟩ ∧
    ¬ ((400 : ℚ) - 168 ≤ 8) := by
  refine ⟨?_, ?_, by norm_num, ?_, ?_, by norm_num⟩ <;>
  norm_num [Update, moveAndCollide, afterGravity, collideAndMove, checkHorizontal, checkVertical,
    Player.HandleInput, Player.ApplyGravity, Player.NextRectX, Player.NextRectY, image.Rect,
    image.Rectangle.Overlaps, image.Rectangle.Empty, world.GetInitialPlatforms, world.ScreenHeight,
    world.ScreenWidth, resetIfFallen, screenBoundaries, ScreenHeight, ScreenWidth, Width, Height,
    gravity, maxFallSpeed, moveSpeed, jumpPower, Go.int, Int.tdiv_eq_ediv, Player.HandleCollisionX,
    Player.HandleCollisionY, Player.ResetPosition]

end game

/-! ## The flat and the layered implementation -/

namespace game

open player

/-- The horizontal loop of the flat `Update` reacts exactly when some platform
overlaps the box. -/
theorem flat_checkHorizontal_eq (r : image.Rectangle) (pl : flat.Player)
    (ps : List image.Rectangle) :
    flat.checkHorizontal r pl ps =
      if ps.any (fun p => r.Overlaps p) then ({ pl with vx := 0 }, true) else (pl, false) := by
  induction ps with
  | nil => simp [flat.checkHorizontal]
  | cons p ps ih =>
    by_cases h : r.Overlaps p = true
    · simp [flat.checkHorizontal, h]
    · simp [flat.checkHorizontal, h, ih]

/-- The vertical loop of the flat `Update` reacts to the first platform that
overlaps the box. -/
theorem flat_checkVertical_eq (r : image.Rectangle) (pl : flat.Player)
    (ps : List image.Rectangle) :
    flat.checkVertical r pl ps =
      match ps.find? (fun p => r.Overlaps p) with
      | some p =>
        ({ x := pl.x,
           y := if pl.vy > 0 then (p.Min.Y : ℚ) - 32 else if pl.vy < 0 then (p.Max.Y : ℚ) else pl.y,
           vx := pl.vx, vy := 0,
           onGround := if pl.vy > 0 then true else pl.onGround }, true)
      | none => (pl, false) := by
  induction ps with
  | nil => simp [flat.checkVertical]
  | cons p ps ih =>
    by_cases h : r.Overlaps p = true
    · rcases lt_trichotomy pl.vy 0 with hv | hv | hv <;>
        simp [flat.checkVertical, h, List.find?, hv, not_lt.mpr hv.le, flat.playerHeight]
    · simp [flat.checkVertical, h, ih, List.find?]

/-- The input and physics sections of the flat `Update` compute what
`HandleInput` and `ApplyGravity` compute. -/
theorem flat_inputAndGravity_eq (pl : Player) (k : Keys) :
    flat.inputAndGravity (toFlat pl) k = toFlat ((pl.HandleInput k).ApplyGravity) := by
  simp only [flat.inputAndGravity, toFlat, Player.HandleInput, Player.ApplyGravity,
    flat.playerMoveSpeed, flat.playerJumpPower, flat.gravity, flat.maxFallSpeed, moveSpeed,
    jumpPower, gravity, maxFallSpeed]
  cases k.KeyLeft <;> cases k.KeyRight <;> cases k.KeySpace <;> cases pl.OnGround <;>
    simp <;> split <;> simp

/-- The collision section of the flat `Update`, field by field. -/
theorem flat_collideAndMove_eq (q : Player) (ps : List world.Platform) :
    flat.collideAndMove (toFlat q) ps =
      { x := if ps.any (fun p => q.NextRectX.Overlaps p) then q.X else q.X + q.Vx,
        vx := if ps.any (fun p => q.NextRectX.Overlaps p) then 0 else q.Vx,
        y := match ps.find? (fun p => (flat.nextRectY q.X q.Y q.Vy).Overlaps p) with
          | some P =>
            if q.Vy > 0 then (P.Min.Y : ℚ) - 32
            else if q.Vy < 0 then (P.Max.Y : ℚ)
            else q.Y
          | none => q.Y + q.Vy,
        vy := match ps.find? (fun p => (flat.nextRectY q.X q.Y q.Vy).Overlaps p) with
          | some _ => 0
          | none => q.Vy,
        onGround := match ps.find? (fun p => (flat.nextRectY q.X q.Y q.Vy).Overlaps p) with
          | some _ => decide (q.Vy > 0)
          | none => false } := by
  have hrX : image.Rect (Go.int (q.X + q.Vx)) (Go.int q.Y)
      (Go.int (q.X + q.Vx) + flat.playerWidth) (Go.int q.Y + flat.playerHeight)
      = q.NextRectX := rfl
  simp only [flat.collideAndMove, toFlat, flat_checkHorizontal_eq, flat_checkVertical_eq, hrX]
  cases hX : ps.any (fun p => q.NextRectX.Overlaps p) <;>
  cases hY : ps.find? (fun p => (flat.nextRectY q.X q.Y q.Vy).Overlaps p) <;>
  rcases lt_trichotomy q.Vy 0 with hv | hv | hv <;>
  simp [hv, hv.le, not_lt.mpr hv.le]

end game

namespace game

open player

/-- The screen boundary section of the flat `Update` against the last two steps
of the layered one: the same `x`, `y` and `vy`; `vx` and `onGround` are kept. -/
theorem flat_boundaries_eq (m : Player) :
    (flat.boundaries (toFlat m)).x = (resetIfFallen (screenBoundaries m)).X ∧
    (flat.boundaries (toFlat m)).y = (resetIfFallen (screenBoundaries m)).Y ∧
    (flat.boundaries (toFlat m)).vy = (resetIfFallen (screenBoundaries m)).Vy ∧
    (flat.boundaries (toFlat m)).vx = m.Vx ∧
    (flat.boundaries (toFlat m)).onGround = m.OnGround := by
  simp only [flat.boundaries, toFlat, resetIfFallen, screenBoundaries, Player.ResetPosition,
    flat.playerWidth, flat.screenWidth, flat.screenHeight, Width, ScreenWidth, ScreenHeight,
    world.ScreenWidth, world.ScreenHeight]
  push_cast
  by_cases h0 : m.X < 0 <;> by_cases h1 : (640 : ℚ) < m.X + 16 <;>
    by_cases h2 : (480 : ℚ) < m.Y <;> simp [h0, h1, h2]

/-- A player that has landed in the level is at `Y <= 408`. -/
theorem landed_in_level (q : Player)
    (h : (collideAndMove q world.GetInitialPlatforms).OnGround = true) :
    (collideAndMove q world.GetInitialPlatforms).Y ≤ 408 := by
  rw [collideAndMove_eq] at h ⊢
  cases hf : world.GetInitialPlatforms.find? (fun p => q.NextRectY.Overlaps p) with
  | none => simp [hf] at h
  | some P =>
    simp only [hf, decide_eq_true_eq] at h
    have hmem := List.mem_of_find?_eq_some hf
    rw [GetInitialPlatforms_eq] at hmem
    simp only [List.mem_cons, List.mem_singleton, List.not_mem_nil, or_false] at hmem
    simp only [h, if_true]
    rcases hmem with e | e | e | e <;> (rw [e]; norm_num)

/-- C18, as the code has it. In the level, for every player state and key
input of a frame in which the layered `NextRectY` and the rectangle `nextRectY`
of the flat version have the same first overlapping platform in the list (or
both have none), one frame of the flat `Update` and one frame of the layered
`Update` end with the same `X`, the same `Y`, the same `Vy` and the same
`OnGround`. `Vx` is the same or is 0 in the layered version; it is the same
when the layered version neither clamps `X` at a screen edge nor resets the
player. -/
theorem flat_layered_agree (pl : Player) (k : Keys)
    (hsame :
      world.GetInitialPlatforms.find?
          (fun p => (afterGravity ⟨pl, world.GetInitialPlatforms⟩ k).NextRectY.Overlaps p)
        = world.GetInitialPlatforms.find?
          (fun p => (flat.nextRectY (afterGravity ⟨pl, world.GetInitialPlatforms⟩ k).X
            (afterGravity ⟨pl, world.GetInitialPlatforms⟩ k).Y
            (afterGravity ⟨pl, world.GetInitialPlatforms⟩ k).Vy).Overlaps p)) :
    (flat.Update ⟨toFlat pl, world.GetInitialPlatforms⟩ k).player.x
      = (Update ⟨pl, world.GetInitialPlatforms⟩ k).player.X ∧
    (flat.Update ⟨toFlat pl, world.GetInitialPlatforms⟩ k).player.y
      = (Update ⟨pl, world.GetInitialPlatforms⟩ k).player.Y ∧
    (flat.Update ⟨toFlat pl, world.GetInitialPlatforms⟩ k).player.vy
      = (Update ⟨pl, world.GetInitialPlatforms⟩ k).player.Vy ∧
    (flat.Update ⟨toFlat pl, world.GetInitialPlatforms⟩ k).player.onGround
      = (Update ⟨pl, world.GetInitialPlatforms⟩ k).player.OnGround ∧
    ((Update ⟨pl, world.GetInitialPlatforms⟩ k).player.Vx
        = (flat.Update ⟨toFlat pl, world.GetInitialPlatforms⟩ k).player.vx ∨
      (Update ⟨pl, world.GetInitialPlatforms⟩ k).player.Vx = 0) ∧
    ((0 ≤ (moveAndCollide ⟨pl, world.GetInitialPlatforms⟩ k).X ∧
        (moveAndCollide ⟨pl, world.GetInitialPlatforms⟩ k).X ≤ 624) →
      (moveAndCollide ⟨pl, world.GetInitialPlatforms⟩ k).Y ≤ 480 →
      (Update ⟨pl, world.GetInitialPlatforms⟩ k).player.Vx
        = (flat.Update ⟨toFlat pl, world.GetInitialPlatforms⟩ k).player.vx) := by
  have hF : (flat.Update ⟨toFlat pl, world.GetInitialPlatforms⟩ k).player =
      flat.boundaries (toFlat (moveAndCollide ⟨pl, world.GetInitialPlatforms⟩ k)) := by
    simp only [flat.Update, flat_inputAndGravity_eq, moveAndCollide]
    congr 1
    change flat.collideAndMove (toFlat (afterGravity ⟨pl, world.GetInitialPlatforms⟩ k))
        world.GetInitialPlatforms
      = toFlat (collideAndMove (afterGravity ⟨pl, world.GetInitialPlatforms⟩ k)
        world.GetInitialPlatforms)
    rw [flat_collideAndMove_eq, collideAndMove_eq, ← hsame]
    rfl
  obtain ⟨b1, b2, b3, b4, b5⟩ := flat_boundaries_eq (moveAndCollide ⟨pl, world.GetInitialPlatforms⟩ k)
  have hL : (Update ⟨pl, world.GetInitialPlatforms⟩ k).player =
      resetIfFallen (screenBoundaries (moveAndCollide ⟨pl, world.GetInitialPlatforms⟩ k)) := rfl
  obtain ⟨hsV, -⟩ := screenBoundaries_horizontal (moveAndCollide ⟨pl, world.GetInitialPlatforms⟩ k)
  rw [hF, hL]
  refine ⟨b1, b2, b3, ?_, ?_, ?_⟩
  · rw [b5, ← hL, (Update_vertical _ k).2.2]
    by_cases hr : 480 < (moveAndCollide ⟨pl, world.GetInitialPlatforms⟩ k).Y
    · simp only [hr, if_true]
      cases hg : (moveAndCollide ⟨pl, world.GetInitialPlatforms⟩ k).OnGround with
      | false => rfl
      | true =>
        have := landed_in_level _ hg
        have h2 : (moveAndCollide ⟨pl, world.GetInitialPlatforms⟩ k).Y ≤ 408 := this
        linarith
    · simp only [hr, if_false]
  · rw [b4]
    unfold resetIfFallen
    split
    · right; rfl
    · rcases hsV with h | h
      · left; exact h
      · right; exact h
  · rintro ⟨h0, h1⟩ hle
    rw [b4]
    have hs : screenBoundaries (moveAndCollide ⟨pl, world.GetInitialPlatforms⟩ k)
        = moveAndCollide ⟨pl, world.GetInitialPlatforms⟩ k := by
      have h0' : ¬ (moveAndCollide ⟨pl, world.GetInitialPlatforms⟩ k).X < 0 := not_lt.mpr h0
      have h2 : ¬ ((640 : ℚ) < (moveAndCollide ⟨pl, world.GetInitialPlatforms⟩ k).X + 16) := by
        linarith
      simp [screenBoundaries, h0', h2, ScreenWidth, world.ScreenWidth, Width]
    rw [hs, resetIfFallen_of_le _ hle]

/-- C18, witness: the landing frame from `Y = 439`, `Vy = 8` above the floor
of the level, no key held. The layered box (100,447)-(116,471) and the flat
box (100,447)-(116,479) both overlap the floor first, and both implementations
end the frame at `Y = 408` with `Vy = 0` and `OnGround = true`. -/
theorem flat_layered_agree_witness :
    (flat.Update ⟨toFlat ⟨100, 439, 0, 8, false⟩, world.GetInitialPlatforms⟩
        ⟨false, false, false⟩).player.y
      = (Update ⟨⟨100, 439, 0, 8, false⟩, world.GetInitialPlatforms⟩
        ⟨false, false, false⟩).player.Y ∧
    (flat.Update ⟨toFlat ⟨100, 439, 0, 8, false⟩, world.GetInitialPlatforms⟩
        ⟨false, false, false⟩).player.onGround
      = (Update ⟨⟨100, 439, 0, 8, false⟩, world.GetInitialPlatforms⟩
        ⟨false, false, false⟩).player.OnGround ∧
    (Update ⟨⟨100, 439, 0, 8, false⟩, world.GetInitialPlatforms⟩
        ⟨false, false, false⟩).player = ⟨100, 408, 0, 0, true⟩ := by
  have h := flat_layered_agree ⟨100, 439, 0, 8, false⟩ ⟨false, false, false⟩ (by
    norm_num [afterGravity, Player.HandleInput, Player.ApplyGravity, Player.NextRectY,
      flat.nextRectY, image.Rect, image.Rectangle.Overlaps, image.Rectangle.Empty,
      world.GetInitialPlatforms, world.ScreenHeight, world.ScreenWidth, Width, Height, gravity,
      maxFallSpeed, Go.int, Int.tdiv_eq_ediv, List.find?])
  refine ⟨h.2.1, h.2.2.2.1, ?_⟩
  norm_num [Update, moveAndCollide, afterGravity, collideAndMove, checkHorizontal, checkVertical,
    Player.HandleInput, Player.ApplyGravity, Player.NextRectX, Player.NextRectY, image.Rect,
    image.Rectangle.Overlaps, image.Rectangle.Empty, world.GetInitialPlatforms, world.ScreenHeight,
    world.ScreenWidth, resetIfFallen, screenBoundaries, ScreenHeight, ScreenWidth, Width, Height,
    gravity, maxFallSpeed, moveSpeed, jumpPower, Go.int, Int.tdiv_eq_ediv, Player.HandleCollisionX,
    Player.HandleCollisionY, Player.ResetPosition]

/-- C18, counterexample. In the level with no key held, from `X = 100`,
`Y = 408.4`, `Vy = 0.4` (the state one frame after rest on the floor) the
layered frame ends at `Y = 409.2`, `Vy = 0.8`, `OnGround = false` and the flat
frame at `Y = 408`, `Vy = 0`, `OnGround = true`. From `X = 300`, `Y = 480` with
right held, both frames reset the player without a clamp of `X`, and `Vx` ends
at 0 in the layered version and at 3 in the flat one. -/
theorem flat_layered_differ :
    (Update ⟨⟨100, 2042 / 5, 0, 2 / 5, false⟩, world.GetInitialPlatforms⟩
      ⟨false, false, false⟩).player = ⟨100, 2046 / 5, 0, 4 / 5, false⟩ ∧
    (flat.Update ⟨toFlat ⟨100, 2042 / 5, 0, 2 / 5, false⟩, world.GetInitialPlatforms⟩
      ⟨false, false, false⟩).player = ⟨100, 408, 0, 0, true⟩ ∧
    (Update ⟨⟨100, 2042 / 5, 0, 2 / 5, false⟩, world.GetInitialPlatforms⟩
        ⟨false, false, false⟩).player.Y
      ≠ (flat.Update ⟨toFlat ⟨100, 2042 / 5, 0, 2 / 5, false⟩, world.GetInitialPlatforms⟩
        ⟨false, false, false⟩).player.y ∧
    (Update ⟨⟨300, 480, 0, 0, false⟩, world.GetInitialPlatforms⟩
      ⟨false, true, false⟩).player = ⟨100, 100, 0, 0, false⟩ ∧
    (flat.Update ⟨toFlat ⟨300, 480, 0, 0, false⟩, world.GetInitialPlatforms⟩
      ⟨false, true, false⟩).player = ⟨100, 100, 3, 0, false⟩ ∧
    (moveAndCollide ⟨⟨300, 480, 0, 0, false⟩, world.GetInitialPlatforms⟩
      ⟨false, true, false⟩).X = 303 := by
  refine ⟨?_, ?_, ?_, ?_, ?_, ?_⟩ <;>
  norm_num [Update, moveAndCollide, afterGravity, collideAndMove, checkHorizontal, checkVertical,
    Player.HandleInput, Player.ApplyGravity, Player.NextRectX, Player.NextRectY, image.Rect,
    image.Rectangle.Overlaps, image.Rectangle.Empty, world.GetInitialPlatforms, world.ScreenHeight,
    world.ScreenWidth, resetIfFallen, screenBoundaries, ScreenHeight, ScreenWidth, Width, Height,
    gravity, maxFallSpeed, moveSpeed, jumpPower, Go.int, Int.tdiv_eq_ediv, Player.HandleCollisionX,
    Player.HandleCollisionY, Player.ResetPosition, flat.Update, flat.inputAndGravity,
    flat.collideAndMove, flat.checkHorizontal, flat.checkVertical, flat.boundaries,
    flat.nextRectY, toFlat, flat.playerWidth, flat.playerHeight, flat.playerMoveSpeed,
    flat.playerJumpPower, flat.gravity, flat.maxFallSpeed, flat.screenWidth, flat.screenHeight]

end game
